import Mathlib

/-!
# Device Communication Relay Server: room registry

A shallow embedding of `src/server.js`: the `rooms` map, the per-connection
`currentRoom` variable, and the two WebSocket handlers (`message`, `close`),
together with the properties of the join / relay / leave protocol.

Modelling conventions
* A connection (`ws`) is identified by a natural number; object identity in
  JavaScript becomes equality of identifiers.
* `rooms` is a JavaScript `Map`; it is represented by its entries in
  insertion order. A participant array is never shared between two keys, so
  the in-place `push` / `splice` on `rooms.get(k)` is a `set` of the entry.
* `readyState === WebSocket.OPEN` is decided by the transport, not by the
  handlers, so every handler takes the predicate `isOpen` as an input.
* Every `client.send(...)` call is recorded as a pair (target, frame), in
  call order.
* `JSON.parse` is a built-in: a handler receives its outcome (`Parsed`).
-/

namespace RelayServer

/-- Identity of one WebSocket connection object. -/
abbrev Conn := Nat

/-- A JavaScript value as read out of a parsed frame (`message.type`,
`message.roomCode`, `message.content`). Objects and arrays are compared by
reference, so they are represented by an identity. Numbers are represented by
an integer code; `0` stands for both zeros, which are one `Map` key. -/
inductive Value where
  | undefined
  | null
  | bool (b : Bool)
  | num (n : Int)
  | str (s : String)
  | ref (id : Nat)
  deriving DecidableEq, Repr

/-- JavaScript truthiness, as used by `currentRoom && ...`. -/
def Value.truthy : Value → Bool
  | .undefined => false
  | .null => false
  | .bool b => b
  | .num n => n != 0
  | .str s => s != ""
  | .ref _ => true

/-- The frames the server serialises with `JSON.stringify`. -/
inductive Frame where
  | joined (roomCode : Value)
  | connected
  | message (content : Value)
  | disconnected
  deriving DecidableEq, Repr

/-- One call `client.send(frame)`. -/
abbrev Send := Conn × Frame

/-- Outcome of `JSON.parse(data)` as far as the handler looks at it. -/
inductive Parsed where
  /-- `JSON.parse` throws a `SyntaxError`. -/
  | syntaxError
  /-- The text parses to `null`: reading `message.type` throws a `TypeError`. -/
  | null
  /-- Any other parsed value, with the three properties the handler reads
  (`undefined` when the property is absent, as for every non-object value). -/
  | value (type roomCode content : Value)
  deriving DecidableEq, Repr

/-- Errors that can be thrown inside the `try` block. -/
inductive JsError where
  | syntaxError
  | typeError
  deriving DecidableEq, Repr

/-- The `rooms` map: entries `roomCode -> [client1, client2]` in insertion
order. -/
abbrev Rooms := List (Value × List Conn)

/-- `rooms.has(k)`. -/
def Rooms.has : Rooms → Value → Bool
  | [], _ => false
  | (k', _) :: rest, k => if k' = k then true else Rooms.has rest k

/-- `rooms.get(k)`; `none` stands for `undefined`. -/
def Rooms.get : Rooms → Value → Option (List Conn)
  | [], _ => none
  | (k', v) :: rest, k => if k' = k then some v else Rooms.get rest k

/-- `rooms.set(k, v)`: overwrite the entry in place, or append a new one. -/
def Rooms.set : Rooms → Value → List Conn → Rooms
  | [], k, v => [(k, v)]
  | (k', v') :: rest, k, v =>
    if k' = k then (k', v) :: rest else (k', v') :: Rooms.set rest k v

/-- `rooms.delete(k)`. -/
def Rooms.delete : Rooms → Value → Rooms
  | [], _ => []
  | (k', v') :: rest, k =>
    if k' = k then Rooms.delete rest k else (k', v') :: Rooms.delete rest k

/-- `rooms.size`. -/
def Rooms.size (rooms : Rooms) : Nat := rooms.length

/-- The participant array stored under `k` (empty when there is no entry). -/
def Rooms.clients (rooms : Rooms) (k : Value) : List Conn :=
  (Rooms.get rooms k).getD []

/-- Server state: the global `rooms` map and, for every connection, the
`currentRoom` variable of its closure (initially `null`). -/
structure State where
  rooms : Rooms
  currentRoom : Conn → Value

/-- State at start-up: `new Map()`, and `let currentRoom = null` for every
connection accepted later. -/
def State.init : State := { rooms := [], currentRoom := fun _ => Value.null }

/-- Body of `GET /health`: the reported `activeRooms`. -/
def health (s : State) : Nat := Rooms.size s.rooms

/-- The `join` branch of the message handler (lines 33-52). -/
def joinBranch (isOpen : Conn → Bool) (s : State) (ws : Conn) (roomCode : Value) :
    State × List Send :=
  let rooms1 := if Rooms.has s.rooms roomCode then s.rooms else Rooms.set s.rooms roomCode []
  let rooms2 := Rooms.set rooms1 roomCode (Rooms.clients rooms1 roomCode ++ [ws])
  let clients := Rooms.clients rooms2 roomCode
  let notified : List Send :=
    if clients.length = 2 then
      (clients.filter (fun client => isOpen client)).map (fun client => (client, Frame.connected))
    else []
  ({ rooms := rooms2, currentRoom := fun c => if c = ws then roomCode else s.currentRoom c },
   (ws, Frame.joined roomCode) :: notified)

/-- The `message` branch of the message handler (lines 54-66): the frames
relayed; the state is not touched. -/
def messageBranch (isOpen : Conn → Bool) (s : State) (ws : Conn) (content : Value) :
    List Send :=
  let currentRoom := s.currentRoom ws
  if currentRoom.truthy && Rooms.has s.rooms currentRoom then
    ((Rooms.clients s.rooms currentRoom).filter
        (fun client => client != ws && isOpen client)).map
      (fun client => (client, Frame.message content))
  else []

/-- The `try` block of the message handler (lines 30-66). -/
def tryBlock (isOpen : Conn → Bool) (s : State) (ws : Conn) (data : Parsed) :
    Except JsError (State × List Send) :=
  match data with
  | .syntaxError => .error .syntaxError
  | .null => .error .typeError
  | .value type roomCode content =>
    if type = Value.str "join" then .ok (joinBranch isOpen s ws roomCode)
    else if type = Value.str "message" then .ok (s, messageBranch isOpen s ws content)
    else .ok (s, [])

/-- The handler `ws.on('message', ...)` (lines 28-70): the `try` block, and a
`catch` that only logs. Both throwing points precede every mutation and every
send, so a caught error leaves the state as it was. An `error` result would be
an exception escaping the handler. -/
def onMessage (isOpen : Conn → Bool) (s : State) (ws : Conn) (data : Parsed) :
    Except JsError (State × List Send) :=
  match tryBlock isOpen s ws data with
  | .ok r => .ok r
  | .error _ => .ok (s, [])

/-- The handler `ws.on('close', ...)` (lines 72-96). -/
def onClose (isOpen : Conn → Bool) (s : State) (ws : Conn) : State × List Send :=
  let currentRoom := s.currentRoom ws
  if currentRoom.truthy && Rooms.has s.rooms currentRoom then
    let roomClients := Rooms.clients s.rooms currentRoom
    if ws ∈ roomClients then
      let remaining := roomClients.erase ws
      let notified : List Send :=
        (remaining.filter (fun client => isOpen client)).map
          (fun client => (client, Frame.disconnected))
      let rooms1 := Rooms.set s.rooms currentRoom remaining
      let rooms2 := if remaining.length = 0 then Rooms.delete rooms1 currentRoom else rooms1
      ({ s with rooms := rooms2 }, notified)
    else (s, [])
  else (s, [])

/-- A `join` frame for room code `r`. -/
def joinFrame (r : Value) : Parsed := .value (.str "join") r .undefined

/-- A `message` frame with content `c`. -/
def messageFrame (c : Value) : Parsed := .value (.str "message") .undefined c

/-- States reachable from start-up by inbound frames and closes of any
connections, under any evolution of the connections' ready states. -/
inductive Reachable : State → Prop where
  | init : Reachable State.init
  | frame {s s' : State} {out : List Send} (isOpen : Conn → Bool) (ws : Conn) (data : Parsed) :
      Reachable s → onMessage isOpen s ws data = .ok (s', out) → Reachable s'
  | close {s : State} (isOpen : Conn → Bool) (ws : Conn) :
      Reachable s → Reachable (onClose isOpen s ws).1

/-- Frames of `out` addressed to connection `c`, in order. -/
def sentTo (out : List Send) (c : Conn) : List Frame :=
  (out.filter (fun p => p.1 = c)).map (fun p => p.2)

/-- The representation invariant of a `Map`: no key occurs twice. -/
def Rooms.WF (rooms : Rooms) : Prop := (rooms.map Prod.fst).Nodup

instance (rooms : Rooms) : Decidable (Rooms.WF rooms) := by
  unfold Rooms.WF; infer_instance

/-- No entry of the map holds an empty participant array. -/
def NoEmptyRoom (rooms : Rooms) : Prop := ∀ e ∈ rooms, e.2 ≠ []

/-- Ready states in which every connection is open. -/
def allOpen : Conn → Bool := fun _ => true

/-- Ready states in which no connection is open. -/
def noneOpen : Conn → Bool := fun _ => false

/-- Ready states in which every connection but `c` is open. -/
def openExcept (c : Conn) : Conn → Bool := fun x => x != c

/-- State after connection `a` joined room `r` at start-up, all open. -/
def afterOneJoin (a : Conn) (r : Value) : State :=
  (joinBranch allOpen State.init a r).1

/-- State after `a` and then `b` joined room `r` at start-up, all open. -/
def afterTwoJoins (a b : Conn) (r : Value) : State :=
  (joinBranch allOpen (afterOneJoin a r) b r).1

/-- An event the transport delivers to the server: an inbound frame of a
connection (given by the outcome of `JSON.parse`) or the close of a
connection. -/
inductive Event where
  | frame (ws : Conn) (data : Parsed)
  | close (ws : Conn)
  deriving DecidableEq, Repr

/-- The handler run for one event under the ready states `isOpen`. The
`error` case would be an exception escaping the message handler; it never
occurs (`onMessage_cases`). -/
def step (isOpen : Conn → Bool) (s : State) (e : Event) : State × List Send :=
  match e with
  | .frame ws data =>
    match onMessage isOpen s ws data with
    | .ok r => r
    | .error _ => (s, [])
  | .close ws => onClose isOpen s ws

/-- The state after a sequence of events, each handled under its own ready
states, oldest first. -/
def run (s : State) : List ((Conn → Bool) × Event) → State
  | [] => s
  | (isOpen, e) :: rest => run (step isOpen s e).1 rest

/-- Whether the event is the close of connection `c`. -/
def Event.isCloseOf (c : Conn) : Event → Bool
  | .close ws => decide (ws = c)
  | .frame _ _ => false

/-- The room code of the event when it is a `join` frame of connection `c`. -/
def Event.joinCodeOf (c : Conn) : Event → Option Value
  | .frame ws (.value type roomCode _) =>
    if ws = c ∧ type = Value.str "join" then some roomCode else none
  | _ => none

/-- The room code of the last `join` frame of `c` in the sequence (`acc` when
there is none). -/
def lastJoin (c : Conn) : Option Value → List ((Conn → Bool) × Event) → Option Value
  | acc, [] => acc
  | acc, (_, e) :: rest =>
    lastJoin c (match Event.joinCodeOf c e with
      | some r => some r
      | none => acc) rest

/-- Whether the close handler of `c` runs somewhere in the sequence. -/
def closeRan (c : Conn) (events : List ((Conn → Bool) × Event)) : Bool :=
  events.any (fun p => Event.isCloseOf c p.2)

/-- Whether `c` sends a `join` frame somewhere in the sequence. -/
def joinsAgain (c : Conn) (events : List ((Conn → Bool) × Event)) : Bool :=
  events.any (fun p => (Event.joinCodeOf c p.2).isSome)

/-- State after connection `c` joins `r1`, then joins `r2`, then closes. -/
def joinJoinClose (isOpen1 isOpen2 isOpen3 : Conn → Bool) (s : State) (c : Conn)
    (r1 r2 : Value) : State :=
  (onClose isOpen3 (joinBranch isOpen2 (joinBranch isOpen1 s c r1).1 c r2).1 c).1

/-- Whether `c` sends a `join` frame for room code `k` somewhere in the
sequence. -/
def rejoins (c : Conn) (k : Value) (events : List ((Conn → Bool) × Event)) : Bool :=
  events.any (fun p => decide (Event.joinCodeOf c p.2 = some k))

/-- The connection an event belongs to. -/
def Event.conn : Event → Conn
  | .frame ws _ => ws
  | .close ws => ws

/-- Sequences the transport can deliver: once the close of a connection has
been emitted, no further event of that connection follows. -/
def deliverable : List ((Conn → Bool) × Event) → Bool
  | [] => true
  | (_, .close c) :: rest =>
    rest.all (fun p => Event.conn p.2 != c) && deliverable rest
  | (_, .frame _ _) :: rest => deliverable rest

/-- Whether `c` sends no `join` frame anywhere in the sequence. -/
def neverJoined (c : Conn) (events : List ((Conn → Bool) × Event)) : Bool :=
  !(joinsAgain c events)

/-- State after connection 1 joined "", connection 2 joined "X" and
connection 1 joined "X" as well, all open, from start-up. -/
def emptyThenRejoin : State :=
  run State.init
    [(allOpen, Event.frame 1 (joinFrame (Value.str ""))),
      (allOpen, Event.frame 2 (joinFrame (Value.str "X"))),
      (allOpen, Event.frame 1 (joinFrame (Value.str "X")))]

/-- State after connection 1 sent the join frame for "ABCD" twice and then
closed, from start-up. -/
def doubleJoinThenClose : State :=
  run State.init
    [(allOpen, Event.frame 1 (joinFrame (Value.str "ABCD"))),
      (allOpen, Event.frame 1 (joinFrame (Value.str "ABCD"))),
      (noneOpen, Event.close 1)]

/-! ## The map operations -/

theorem Rooms.has_eq_isSome (rooms : Rooms) (k : Value) :
    Rooms.has rooms k = (Rooms.get rooms k).isSome := by
  induction rooms with
  | nil => rfl
  | cons e rest ih =>
    obtain ⟨k', v⟩ := e
    by_cases h : k' = k <;> simp [Rooms.has, Rooms.get, h, ih]

theorem Rooms.get_set_same (rooms : Rooms) (k : Value) (v : List Conn) :
    Rooms.get (Rooms.set rooms k v) k = some v := by
  induction rooms with
  | nil => simp [Rooms.set, Rooms.get]
  | cons e rest ih =>
    obtain ⟨k', v'⟩ := e
    by_cases h : k' = k <;> simp [Rooms.set, Rooms.get, h, ih]

theorem Rooms.get_set_other (rooms : Rooms) (k k' : Value) (v : List Conn) (hk : k' ≠ k) :
    Rooms.get (Rooms.set rooms k v) k' = Rooms.get rooms k' := by
  induction rooms with
  | nil => simp [Rooms.set, Rooms.get, Ne.symm hk]
  | cons e rest ih =>
    obtain ⟨k₀, v₀⟩ := e
    by_cases h : k₀ = k
    · subst h
      simp [Rooms.set, Rooms.get, Ne.symm hk]
    · by_cases h' : k₀ = k'
      · subst h'
        simp [Rooms.set, Rooms.get, h]
      · simp [Rooms.set, Rooms.get, h, h', ih]

theorem Rooms.get_delete_same (rooms : Rooms) (k : Value) :
    Rooms.get (Rooms.delete rooms k) k = none := by
  induction rooms with
  | nil => rfl
  | cons e rest ih =>
    obtain ⟨k', v'⟩ := e
    by_cases h : k' = k <;> simp [Rooms.delete, Rooms.get, h, ih]

theorem Rooms.get_delete_other (rooms : Rooms) (k k' : Value) (hk : k' ≠ k) :
    Rooms.get (Rooms.delete rooms k) k' = Rooms.get rooms k' := by
  induction rooms with
  | nil => rfl
  | cons e rest ih =>
    obtain ⟨k₀, v₀⟩ := e
    by_cases h : k₀ = k
    · subst h
      simp [Rooms.delete, Rooms.get, Ne.symm hk, ih]
    · by_cases h' : k₀ = k'
      · subst h'
        simp [Rooms.delete, Rooms.get, h]
      · simp [Rooms.delete, Rooms.get, h, h', ih]

theorem Rooms.clients_of_not_has (rooms : Rooms) (k : Value) (h : Rooms.has rooms k = false) :
    Rooms.clients rooms k = [] := by
  rw [Rooms.has_eq_isSome] at h
  cases hg : Rooms.get rooms k with
  | none => simp [Rooms.clients, hg]
  | some v => simp [hg] at h

/-! ## What the handlers do to the map -/

/-- The entry a join leaves under each key: the joined room gets the
connection appended, every other key is untouched. -/
theorem joinBranch_get (isOpen : Conn → Bool) (s : State) (ws : Conn) (r k : Value) :
    Rooms.get (joinBranch isOpen s ws r).1.rooms k =
      if k = r then some (Rooms.clients s.rooms r ++ [ws]) else Rooms.get s.rooms k := by
  by_cases hk : k = r
  · subst hk
    by_cases hh : Rooms.has s.rooms k = true
    · simp [joinBranch, hh, Rooms.get_set_same]
    · have hh' : Rooms.has s.rooms k = false := by simpa using hh
      simp [joinBranch, hh', Rooms.get_set_same, Rooms.clients, Rooms.clients_of_not_has _ _ hh']
      have := Rooms.clients_of_not_has _ _ hh'
      simpa [Rooms.clients] using this
  · by_cases hh : Rooms.has s.rooms r = true
    · simp [joinBranch, hh, hk, Rooms.get_set_other _ _ _ _ hk]
    · have hh' : Rooms.has s.rooms r = false := by simpa using hh
      simp [joinBranch, hh', hk, Rooms.get_set_other _ _ _ _ hk]

theorem Rooms.set_set (rooms : Rooms) (k : Value) (v v' : List Conn) :
    Rooms.set (Rooms.set rooms k v) k v' = Rooms.set rooms k v' := by
  induction rooms with
  | nil => simp [Rooms.set]
  | cons e rest ih =>
    obtain ⟨k', v₀⟩ := e
    by_cases h : k' = k <;> simp [Rooms.set, h, ih]

theorem Rooms.mem_of_get (rooms : Rooms) (k : Value) (v : List Conn)
    (h : Rooms.get rooms k = some v) : (k, v) ∈ rooms := by
  induction rooms with
  | nil => simp [Rooms.get] at h
  | cons e rest ih =>
    obtain ⟨k', v'⟩ := e
    by_cases hk : k' = k
    · subst hk
      simp [Rooms.get] at h
      simp [h]
    · simp [Rooms.get, hk] at h
      exact List.mem_cons_of_mem _ (ih h)

theorem Rooms.mem_set (rooms : Rooms) (k : Value) (v : List Conn) (e : Value × List Conn)
    (h : e ∈ Rooms.set rooms k v) : e ∈ rooms ∨ e = (k, v) := by
  induction rooms with
  | nil => simpa [Rooms.set] using h
  | cons e₀ rest ih =>
    obtain ⟨k', v'⟩ := e₀
    by_cases hk : k' = k
    · subst hk
      simp [Rooms.set] at h
      rcases h with h | h
      · exact Or.inr h
      · exact Or.inl (List.mem_cons_of_mem _ h)
    · simp [Rooms.set, hk] at h
      rcases h with h | h
      · exact Or.inl (by simp [h])
      · rcases ih h with h' | h'
        · exact Or.inl (List.mem_cons_of_mem _ h')
        · exact Or.inr h'

theorem Rooms.mem_delete (rooms : Rooms) (k : Value) (e : Value × List Conn)
    (h : e ∈ Rooms.delete rooms k) : e ∈ rooms ∧ e.1 ≠ k := by
  induction rooms with
  | nil => simp [Rooms.delete] at h
  | cons e₀ rest ih =>
    obtain ⟨k', v'⟩ := e₀
    by_cases hk : k' = k
    · simp only [Rooms.delete, hk, if_true] at h
      exact ⟨List.mem_cons_of_mem _ (ih h).1, (ih h).2⟩
    · simp only [Rooms.delete, hk, if_false, List.mem_cons] at h
      rcases h with h | h
      · subst h
        exact ⟨List.mem_cons_self _ _, hk⟩
      · exact ⟨List.mem_cons_of_mem _ (ih h).1, (ih h).2⟩

theorem Rooms.keys_delete_sublist (rooms : Rooms) (k : Value) :
    List.Sublist ((Rooms.delete rooms k).map Prod.fst) (rooms.map Prod.fst) := by
  induction rooms with
  | nil => exact List.Sublist.refl _
  | cons e rest ih =>
    obtain ⟨k', v'⟩ := e
    by_cases hk : k' = k
    · simp only [Rooms.delete, hk, if_true, List.map_cons]
      exact List.Sublist.cons _ ih
    · simp only [Rooms.delete, hk, if_false, List.map_cons]
      exact List.Sublist.cons₂ _ ih

/-- Keys after `set`: unchanged for a present key, one more at the end for a
new key. -/
theorem Rooms.keys_set (rooms : Rooms) (k : Value) (v : List Conn) :
    (Rooms.set rooms k v).map Prod.fst =
      if Rooms.has rooms k then rooms.map Prod.fst else rooms.map Prod.fst ++ [k] := by
  induction rooms with
  | nil => simp [Rooms.set, Rooms.has]
  | cons e rest ih =>
    obtain ⟨k', v'⟩ := e
    by_cases hk : k' = k
    · simp [Rooms.set, Rooms.has, hk]
    · by_cases hh : Rooms.has rest k = true
      · simp [Rooms.set, Rooms.has, hk, ih, hh]
      · simp [Rooms.set, Rooms.has, hk, ih, hh]

theorem Rooms.has_iff_mem_keys (rooms : Rooms) (k : Value) :
    Rooms.has rooms k = true ↔ k ∈ rooms.map Prod.fst := by
  induction rooms with
  | nil => simp [Rooms.has]
  | cons e rest ih =>
    obtain ⟨k', v'⟩ := e
    by_cases hk : k' = k
    · simp [Rooms.has, hk]
    · simp only [Rooms.has, hk, if_false, ih, List.map_cons, List.mem_cons]
      constructor
      · exact Or.inr
      · rintro (h | h)
        · exact absurd h.symm hk
        · exact h

theorem Rooms.WF_set (rooms : Rooms) (k : Value) (v : List Conn) (h : Rooms.WF rooms) :
    Rooms.WF (Rooms.set rooms k v) := by
  unfold Rooms.WF at *
  rw [Rooms.keys_set]
  by_cases hh : Rooms.has rooms k = true
  · simpa [hh] using h
  · have hn : k ∉ rooms.map Prod.fst := fun hm => hh ((Rooms.has_iff_mem_keys rooms k).2 hm)
    simp only [hh, if_false]
    exact List.Nodup.append h (List.nodup_singleton k)
      (by
        intro a ha hb
        simp only [List.mem_singleton] at hb
        exact hn (hb ▸ ha))

theorem Rooms.WF_delete (rooms : Rooms) (k : Value) (h : Rooms.WF rooms) :
    Rooms.WF (Rooms.delete rooms k) := by
  unfold Rooms.WF at *
  exact List.Nodup.sublist (Rooms.keys_delete_sublist rooms k) h

/-- The map a join leaves: the connection appended to the room's array. -/
theorem joinBranch_rooms (isOpen : Conn → Bool) (s : State) (ws : Conn) (r : Value) :
    (joinBranch isOpen s ws r).1.rooms =
      Rooms.set s.rooms r (Rooms.clients s.rooms r ++ [ws]) := by
  by_cases hh : Rooms.has s.rooms r = true
  · simp [joinBranch, hh]
  · have hh' : Rooms.has s.rooms r = false := by simpa using hh
    have hc := Rooms.clients_of_not_has _ _ hh'
    have hc' : (Rooms.get s.rooms r).getD [] = [] := hc
    simp [joinBranch, hh', Rooms.set_set, hc', Rooms.clients, Rooms.get_set_same]

/-- The map a close leaves. -/
theorem onClose_rooms (isOpen : Conn → Bool) (s : State) (ws : Conn) :
    (onClose isOpen s ws).1.rooms =
      if (s.currentRoom ws).truthy = true ∧ Rooms.has s.rooms (s.currentRoom ws) = true ∧
          ws ∈ Rooms.clients s.rooms (s.currentRoom ws) then
        if (Rooms.clients s.rooms (s.currentRoom ws)).erase ws = [] then
          Rooms.delete (Rooms.set s.rooms (s.currentRoom ws) []) (s.currentRoom ws)
        else
          Rooms.set s.rooms (s.currentRoom ws)
            ((Rooms.clients s.rooms (s.currentRoom ws)).erase ws)
      else s.rooms := by
  unfold onClose
  by_cases h1 : (s.currentRoom ws).truthy = true
  · by_cases h2 : Rooms.has s.rooms (s.currentRoom ws) = true
    · by_cases h3 : ws ∈ Rooms.clients s.rooms (s.currentRoom ws)
      · by_cases h4 : (Rooms.clients s.rooms (s.currentRoom ws)).erase ws = []
        · simp [h1, h2, h3, h4]
        · simp only [h1, h2, h3, h4, Bool.and_self, if_true, and_self, if_false]
          have hlen : ¬ ((Rooms.clients s.rooms (s.currentRoom ws)).erase ws).length = 0 :=
            fun hl => h4 (List.length_eq_zero.1 hl)
          simp only [hlen, if_false]
      · simp [h1, h2, h3]
    · simp [h1, h2]
  · simp [h1]

/-- A close never touches the `currentRoom` variables. -/
theorem onClose_currentRoom (isOpen : Conn → Bool) (s : State) (ws : Conn) :
    (onClose isOpen s ws).1.currentRoom = s.currentRoom := by
  unfold onClose
  dsimp only
  split_ifs <;> rfl

/-- The message handler always returns normally, and its state is either the
old one or the one left by the join branch. -/
theorem onMessage_cases (isOpen : Conn → Bool) (s : State) (ws : Conn) (data : Parsed) :
    (∃ out, onMessage isOpen s ws data = .ok (s, out)) ∨
      (∃ r, onMessage isOpen s ws data = .ok (joinBranch isOpen s ws r)) := by
  cases data with
  | syntaxError => exact Or.inl ⟨[], rfl⟩
  | null => exact Or.inl ⟨[], rfl⟩
  | value type roomCode content =>
    by_cases h1 : type = Value.str "join"
    · exact Or.inr ⟨roomCode, by simp [onMessage, tryBlock, h1]⟩
    · by_cases h2 : type = Value.str "message"
      · exact Or.inl ⟨messageBranch isOpen s ws content, by simp [onMessage, tryBlock, h1, h2]⟩
      · exact Or.inl ⟨[], by simp [onMessage, tryBlock, h1, h2]⟩

theorem joinBranch_noEmpty (isOpen : Conn → Bool) (s : State) (ws : Conn) (r : Value)
    (h : NoEmptyRoom s.rooms) : NoEmptyRoom (joinBranch isOpen s ws r).1.rooms := by
  rw [joinBranch_rooms]
  intro e he
  rcases Rooms.mem_set _ _ _ _ he with h' | h'
  · exact h e h'
  · subst h'
    simp

theorem onClose_noEmpty (isOpen : Conn → Bool) (s : State) (ws : Conn)
    (h : NoEmptyRoom s.rooms) : NoEmptyRoom (onClose isOpen s ws).1.rooms := by
  rw [onClose_rooms]
  split
  · split
    · intro e he
      obtain ⟨he1, he2⟩ := Rooms.mem_delete _ _ _ he
      rcases Rooms.mem_set _ _ _ _ he1 with h' | h'
      · exact h e h'
      · subst h'
        exact absurd rfl he2
    · rename_i hne
      intro e he
      rcases Rooms.mem_set _ _ _ _ he with h' | h'
      · exact h e h'
      · subst h'
        exact hne
  · exact h

theorem joinBranch_WF (isOpen : Conn → Bool) (s : State) (ws : Conn) (r : Value)
    (h : Rooms.WF s.rooms) : Rooms.WF (joinBranch isOpen s ws r).1.rooms := by
  rw [joinBranch_rooms]
  exact Rooms.WF_set _ _ _ h

theorem onClose_WF (isOpen : Conn → Bool) (s : State) (ws : Conn)
    (h : Rooms.WF s.rooms) : Rooms.WF (onClose isOpen s ws).1.rooms := by
  rw [onClose_rooms]
  split
  · split
    · exact Rooms.WF_delete _ _ (Rooms.WF_set _ _ _ h)
    · exact Rooms.WF_set _ _ _ h
  · exact h

/-- Every reachable map has distinct keys and no empty participant array. -/
theorem Reachable.inv {s : State} (h : Reachable s) :
    Rooms.WF s.rooms ∧ NoEmptyRoom s.rooms := by
  induction h with
  | init => exact ⟨List.nodup_nil, fun e he => by simp [State.init] at he⟩
  | frame isOpen ws data _ hstep ih =>
    rcases onMessage_cases isOpen _ ws data with ⟨out, ho⟩ | ⟨r, ho⟩
    · rw [ho] at hstep
      cases hstep
      exact ih
    · rw [ho] at hstep
      have hs := congrArg Prod.fst (Except.ok.inj hstep)
      simp only at hs
      subst hs
      exact ⟨joinBranch_WF _ _ _ _ ih.1, joinBranch_noEmpty _ _ _ _ ih.2⟩
  | close isOpen ws _ ih =>
    exact ⟨onClose_WF _ _ _ ih.1, onClose_noEmpty _ _ _ ih.2⟩

/-! ## Claims -/

/-- C1: in every state reachable from the empty registry by inbound frames and
closes of any connections, no entry of the registry holds an empty participant
list, and a room code is present in the registry if and only if its
participant count is greater than 0. -/
theorem reachable_room_present_iff_count_pos (s : State) (h : Reachable s) :
    (∀ e ∈ s.rooms, e.2 ≠ []) ∧
      ∀ k : Value, Rooms.has s.rooms k = true ↔ 0 < (Rooms.clients s.rooms k).length := by
  refine ⟨h.inv.2, fun k => ?_⟩
  rw [Rooms.has_eq_isSome]
  cases hg : Rooms.get s.rooms k with
  | none => simp [Rooms.clients, hg]
  | some v =>
    have hne : v ≠ [] := h.inv.2 _ (Rooms.mem_of_get _ _ _ hg)
    simp [Rooms.clients, hg, List.length_pos, hne]

theorem reachable_afterOneJoin (a : Conn) (r : Value) : Reachable (afterOneJoin a r) :=
  Reachable.frame allOpen a (joinFrame r) Reachable.init rfl

theorem reachable_afterTwoJoins (a b : Conn) (r : Value) : Reachable (afterTwoJoins a b r) :=
  Reachable.frame allOpen b (joinFrame r) (reachable_afterOneJoin a r) rfl

/-- Witness for C1: the state after one join. -/
theorem reachable_room_present_iff_count_pos_witness :
    Reachable (afterOneJoin 1 (Value.str "ABCD")) ∧
      ((∀ e ∈ (afterOneJoin 1 (Value.str "ABCD")).rooms, e.2 ≠ []) ∧
        ∀ k : Value,
          Rooms.has (afterOneJoin 1 (Value.str "ABCD")).rooms k = true ↔
            0 < (Rooms.clients (afterOneJoin 1 (Value.str "ABCD")).rooms k).length) :=
  ⟨reachable_afterOneJoin 1 (Value.str "ABCD"),
    reachable_room_present_iff_count_pos _ (reachable_afterOneJoin 1 (Value.str "ABCD"))⟩

/-- C2: the concrete scenario. From the empty registry, with X = 1 and Y = 2
open: X joins "ABCD" and is sent exactly `joined "ABCD"`; Y joins "ABCD" and is
sent `joined "ABCD"`, then X and Y are sent `connected`; X sends content "hi"
and the only frame sent is `message "hi"` to Y; Y closes and the only frame
sent is `disconnected` to X; X closes, nothing is sent and the registry no
longer has the key "ABCD". -/
theorem scenario_ABCD :
    ∃ s1 s2 s3 s4 : State,
      onMessage allOpen State.init 1 (joinFrame (Value.str "ABCD")) =
        .ok (s1, [(1, Frame.joined (Value.str "ABCD"))]) ∧
      onMessage allOpen s1 2 (joinFrame (Value.str "ABCD")) =
        .ok (s2, [(2, Frame.joined (Value.str "ABCD")), (1, Frame.connected),
          (2, Frame.connected)]) ∧
      onMessage allOpen s2 1 (messageFrame (Value.str "hi")) =
        .ok (s2, [(2, Frame.message (Value.str "hi"))]) ∧
      onClose (openExcept 2) s2 2 = (s3, [(1, Frame.disconnected)]) ∧
      onClose noneOpen s3 1 = (s4, []) ∧
      Rooms.has s4.rooms (Value.str "ABCD") = false ∧ s4.rooms = [] :=
  ⟨afterOneJoin 1 (Value.str "ABCD"), afterTwoJoins 1 2 (Value.str "ABCD"),
    (onClose (openExcept 2) (afterTwoJoins 1 2 (Value.str "ABCD")) 2).1,
    (onClose noneOpen (onClose (openExcept 2) (afterTwoJoins 1 2 (Value.str "ABCD")) 2).1 1).1,
    rfl, rfl, rfl, rfl, rfl, rfl, rfl⟩

/-- The participant list of the joined room after a join. -/
theorem joinBranch_clients (isOpen : Conn → Bool) (s : State) (c : Conn) (r : Value) :
    Rooms.clients (joinBranch isOpen s c r).1.rooms r = Rooms.clients s.rooms r ++ [c] := by
  simp [Rooms.clients, joinBranch_get]

/-- The frames a join sends. -/
theorem joinBranch_out (isOpen : Conn → Bool) (s : State) (c : Conn) (r : Value) :
    (joinBranch isOpen s c r).2 =
      (c, Frame.joined r) ::
        (if (Rooms.clients s.rooms r).length = 1 then
          ((Rooms.clients s.rooms r ++ [c]).filter (fun x => isOpen x)).map
            (fun x => (x, Frame.connected))
        else []) := by
  have h := joinBranch_clients isOpen s c r
  simp only [joinBranch] at h ⊢
  rw [h]
  simp

/-- Counterexample to C3 as stated: connection 1 is alone in "ABCD" and no
longer open for writing; connection 2 joins, the participant count goes from 1
to 2, both are in the room, yet connection 1 is sent no `connected` frame. -/
theorem join_count_one_to_two_skips_not_open :
    (Rooms.clients (afterOneJoin 1 (Value.str "ABCD")).rooms (Value.str "ABCD")).length = 1 ∧
      Rooms.clients
          (joinBranch (openExcept 1) (afterOneJoin 1 (Value.str "ABCD")) 2
            (Value.str "ABCD")).1.rooms (Value.str "ABCD") = [1, 2] ∧
      sentTo (joinBranch (openExcept 1) (afterOneJoin 1 (Value.str "ABCD")) 2
        (Value.str "ABCD")).2 1 = [] := by
  refine ⟨rfl, rfl, rfl⟩

/-- C3 (amended): for every state, connection `c` and room code `r`, a join of
`c` to `r` appends `c` to the room; it sends a `connected` frame only if the
participant count of `r` goes from 1 to 2; on that transition the frames sent
are `joined` to `c` followed by one `connected` per entry of the two-entry list
that is open for writing, so that with two distinct open participants each is
sent `connected` exactly once; when the count does not go from 1 to 2 only
`joined` is sent. In particular two distinct open connections joining a fresh
room code both receive `connected`, and a third connection joining that code
causes no `connected` frame. -/
theorem join_connected_frames (isOpen : Conn → Bool) (s : State) (c : Conn) (r : Value) :
    Rooms.clients (joinBranch isOpen s c r).1.rooms r = Rooms.clients s.rooms r ++ [c] ∧
    ((∃ t, (t, Frame.connected) ∈ (joinBranch isOpen s c r).2) →
      (Rooms.clients s.rooms r).length = 1 ∧
        (Rooms.clients (joinBranch isOpen s c r).1.rooms r).length = 2) ∧
    ((Rooms.clients s.rooms r).length = 1 →
      (joinBranch isOpen s c r).2 =
        (c, Frame.joined r) ::
          ((Rooms.clients s.rooms r ++ [c]).filter (fun x => isOpen x)).map
            (fun x => (x, Frame.connected))) ∧
    (∀ a : Conn, Rooms.clients s.rooms r = [a] → a ≠ c → isOpen a = true → isOpen c = true →
      sentTo (joinBranch isOpen s c r).2 a = [Frame.connected] ∧
        sentTo (joinBranch isOpen s c r).2 c = [Frame.joined r, Frame.connected]) ∧
    ((Rooms.clients s.rooms r).length ≠ 1 →
      (joinBranch isOpen s c r).2 = [(c, Frame.joined r)]) ∧
    (∀ (b d : Conn) (isOpen2 isOpen3 : Conn → Bool),
      Rooms.has s.rooms r = false → c ≠ b → isOpen2 c = true → isOpen2 b = true →
        (joinBranch isOpen s c r).2 = [(c, Frame.joined r)] ∧
        (joinBranch isOpen2 (joinBranch isOpen s c r).1 b r).2 =
          [(b, Frame.joined r), (c, Frame.connected), (b, Frame.connected)] ∧
        (joinBranch isOpen3 (joinBranch isOpen2 (joinBranch isOpen s c r).1 b r).1 d r).2 =
          [(d, Frame.joined r)]) := by
  refine ⟨joinBranch_clients isOpen s c r, ?_, ?_, ?_, ?_, ?_⟩
  · rintro ⟨t, ht⟩
    rw [joinBranch_out] at ht
    by_cases h1 : (Rooms.clients s.rooms r).length = 1
    · exact ⟨h1, by rw [joinBranch_clients]; simp [h1]⟩
    · simp [h1] at ht
  · intro h1
    rw [joinBranch_out]
    simp [h1]
  · intro a ha hac hoa hoc
    rw [joinBranch_out]
    have hca : c ≠ a := fun h => hac h.symm
    simp [ha, sentTo, List.filter_cons, hoa, hoc, hac, hca]
  · intro h1
    rw [joinBranch_out]
    simp [h1]
  · intro b d isOpen2 isOpen3 hfresh hcb ho2c ho2b
    have h0 : Rooms.clients s.rooms r = [] := Rooms.clients_of_not_has _ _ hfresh
    have hc1 := joinBranch_clients isOpen s c r
    have hc2 := joinBranch_clients isOpen2 (joinBranch isOpen s c r).1 b r
    rw [h0] at hc1
    rw [hc1] at hc2
    refine ⟨?_, ?_, ?_⟩
    · rw [joinBranch_out]
      simp [h0]
    · rw [joinBranch_out, hc1]
      simp [List.filter_cons, ho2c, ho2b]
    · rw [joinBranch_out, hc2]
      simp

/-- Witness for C3: connection 2 joins "ABCD" where connection 1 waits, both
open. -/
theorem join_connected_frames_witness :
    sentTo (joinBranch allOpen (afterOneJoin 1 (Value.str "ABCD")) 2 (Value.str "ABCD")).2 1 =
        [Frame.connected] ∧
      sentTo (joinBranch allOpen (afterOneJoin 1 (Value.str "ABCD")) 2 (Value.str "ABCD")).2 2 =
        [Frame.joined (Value.str "ABCD"), Frame.connected] :=
  (join_connected_frames allOpen (afterOneJoin 1 (Value.str "ABCD")) 2
    (Value.str "ABCD")).2.2.2.1 1 rfl (by decide) rfl rfl

theorem Rooms.has_of_mem_clients (rooms : Rooms) (k : Value) (c : Conn)
    (h : c ∈ Rooms.clients rooms k) : Rooms.has rooms k = true := by
  by_contra hh
  have hh' : Rooms.has rooms k = false := by simpa using hh
  rw [Rooms.clients_of_not_has _ _ hh'] at h
  simp at h

theorem Rooms.get_of_clients_ne_nil (rooms : Rooms) (k : Value) (h : Rooms.clients rooms k ≠ []) :
    Rooms.get rooms k = some (Rooms.clients rooms k) := by
  cases hg : Rooms.get rooms k with
  | none => simp [Rooms.clients, hg] at h
  | some v => simp [Rooms.clients, hg]

theorem Rooms.size_set_of_has (rooms : Rooms) (k : Value) (v : List Conn)
    (h : Rooms.has rooms k = true) : Rooms.size (Rooms.set rooms k v) = Rooms.size rooms := by
  have hk := congrArg List.length (Rooms.keys_set rooms k v)
  simpa [h, Rooms.size] using hk

theorem Rooms.delete_of_not_has (rooms : Rooms) (k : Value) (h : Rooms.has rooms k = false) :
    Rooms.delete rooms k = rooms := by
  induction rooms with
  | nil => rfl
  | cons e rest ih =>
    obtain ⟨k', v'⟩ := e
    by_cases hk : k' = k
    · simp [Rooms.has, hk] at h
    · simp only [Rooms.has, hk, if_false] at h
      simp [Rooms.delete, hk, ih h]

theorem Rooms.size_delete (rooms : Rooms) (k : Value) (hwf : Rooms.WF rooms)
    (h : Rooms.has rooms k = true) :
    Rooms.size (Rooms.delete rooms k) + 1 = Rooms.size rooms := by
  induction rooms with
  | nil => simp [Rooms.has] at h
  | cons e rest ih =>
    obtain ⟨k', v'⟩ := e
    have hwf' : k' ∉ rest.map Prod.fst ∧ Rooms.WF rest := by
      simpa [Rooms.WF] using hwf
    by_cases hk : k' = k
    · subst hk
      have hn : Rooms.has rest k' = false := by
        by_contra hc
        exact hwf'.1 ((Rooms.has_iff_mem_keys rest k').1 (by simpa using hc))
      simp [Rooms.delete, Rooms.size, Rooms.delete_of_not_has rest k' hn]
    · simp only [Rooms.has, hk, if_false] at h
      have := ih hwf'.2 h
      simp only [Rooms.size] at this
      simp [Rooms.delete, Rooms.size, hk, this]

/-- A close of a connection found in the array of its (truthy) current room. -/
theorem onClose_of_mem (isOpen : Conn → Bool) (s : State) (ws : Conn)
    (h1 : (s.currentRoom ws).truthy = true)
    (h3 : ws ∈ Rooms.clients s.rooms (s.currentRoom ws)) :
    onClose isOpen s ws =
      (State.mk
          (if (Rooms.clients s.rooms (s.currentRoom ws)).erase ws = [] then
            Rooms.delete (Rooms.set s.rooms (s.currentRoom ws) []) (s.currentRoom ws)
          else
            Rooms.set s.rooms (s.currentRoom ws)
              ((Rooms.clients s.rooms (s.currentRoom ws)).erase ws))
          s.currentRoom,
        (((Rooms.clients s.rooms (s.currentRoom ws)).erase ws).filter
          (fun client => isOpen client)).map (fun client => (client, Frame.disconnected))) := by
  have h2 := Rooms.has_of_mem_clients _ _ _ h3
  by_cases h4 : (Rooms.clients s.rooms (s.currentRoom ws)).erase ws = []
  · simp [onClose, h1, h2, h3, h4]
  · have hlen : ¬ ((Rooms.clients s.rooms (s.currentRoom ws)).erase ws).length = 0 :=
      fun hl => h4 (List.length_eq_zero.1 hl)
    simp only [onClose, h1, h2, h3, h4, hlen, Bool.and_self, if_true, if_false]

/-- A close of a connection that is not in the array of its current room does
nothing. -/
theorem onClose_of_not_mem (isOpen : Conn → Bool) (s : State) (ws : Conn)
    (h : ws ∉ Rooms.clients s.rooms (s.currentRoom ws)) :
    onClose isOpen s ws = (s, []) := by
  unfold onClose
  dsimp only
  split_ifs <;> rfl

/-- A close of a connection whose current room is falsy does nothing. -/
theorem onClose_of_falsy (isOpen : Conn → Bool) (s : State) (ws : Conn)
    (h : (s.currentRoom ws).truthy = false) :
    onClose isOpen s ws = (s, []) := by
  simp [onClose, h]

/-- The frames relayed for a sender whose current room is truthy and present. -/
theorem messageBranch_of_room (isOpen : Conn → Bool) (s : State) (ws : Conn) (content : Value)
    (h1 : (s.currentRoom ws).truthy = true)
    (h2 : Rooms.has s.rooms (s.currentRoom ws) = true) :
    messageBranch isOpen s ws content =
      ((Rooms.clients s.rooms (s.currentRoom ws)).filter
        (fun client => client != ws && isOpen client)).map
        (fun client => (client, Frame.message content)) := by
  simp [messageBranch, h1, h2]

/-- In an ACTIVE room with a truthy code whose two participants `a` and `b`
are distinct and open, a message from `a` is sent once, unchanged, to `b` and
to nobody else. -/
theorem relay_active_room (isOpen : Conn → Bool) (s : State) (r content : Value) (a b : Conn)
    (hr : r.truthy = true) (ha : s.currentRoom a = r) (hab : a ≠ b)
    (hroom : Rooms.clients s.rooms r = [a, b] ∨ Rooms.clients s.rooms r = [b, a])
    (hb : isOpen b = true) :
    onMessage isOpen s a (messageFrame content) = .ok (s, [(b, Frame.message content)]) := by
  have hmem : a ∈ Rooms.clients s.rooms r := by rcases hroom with h | h <;> simp [h]
  have hhas := Rooms.has_of_mem_clients _ _ _ hmem
  have hba : b ≠ a := fun h => hab h.symm
  have hm : messageBranch isOpen s a content = [(b, Frame.message content)] := by
    rw [messageBranch_of_room isOpen s a content (by rw [ha]; exact hr) (by rw [ha]; exact hhas), ha]
    rcases hroom with h | h <;> simp [h, List.filter_cons, hb, hba]
  simp [onMessage, tryBlock, messageFrame, hm]

/-- C4 at the failing input: connections 1 and 2, both open, join the room
code "" from the empty registry; each is sent `joined ""` and `connected`, and
the room "" holds exactly [1, 2]; the message "hi" from 1 is then sent to
nobody. -/
theorem relay_dropped_for_empty_room_code :
    ∃ s1 s2 : State,
      onMessage allOpen State.init 1 (joinFrame (Value.str "")) =
        .ok (s1, [(1, Frame.joined (Value.str ""))]) ∧
      onMessage allOpen s1 2 (joinFrame (Value.str "")) =
        .ok (s2, [(2, Frame.joined (Value.str "")), (1, Frame.connected),
          (2, Frame.connected)]) ∧
      Rooms.get s2.rooms (Value.str "") = some [1, 2] ∧
      s2.currentRoom 1 = Value.str "" ∧ s2.currentRoom 2 = Value.str "" ∧
      onMessage allOpen s2 1 (messageFrame (Value.str "hi")) = .ok (s2, []) :=
  ⟨afterOneJoin 1 (Value.str ""), afterTwoJoins 1 2 (Value.str ""),
    rfl, rfl, rfl, rfl, rfl, rfl⟩

/-- Closing one of the two distinct participants of a room with a truthy
code leaves the other alone in the room and notifies it if it is open. -/
theorem onClose_of_pair (isOpen : Conn → Bool) (s : State) (r : Value) (a b : Conn)
    (hr : r.truthy = true) (hab : a ≠ b)
    (hroom : Rooms.clients s.rooms r = [a, b] ∨ Rooms.clients s.rooms r = [b, a])
    (hb : s.currentRoom b = r) :
    onClose isOpen s b =
      (State.mk (Rooms.set s.rooms r [a]) s.currentRoom,
        if isOpen a = true then [(a, Frame.disconnected)] else []) := by
  have hmem : b ∈ Rooms.clients s.rooms (s.currentRoom b) := by
    rw [hb]; rcases hroom with h | h <;> simp [h]
  have hba : b ≠ a := fun h => hab h.symm
  have herase : (Rooms.clients s.rooms r).erase b = [a] := by
    rcases hroom with h | h
    · rw [h, List.erase_cons_tail (by simpa using hab), List.erase_cons_head]
    · rw [h, List.erase_cons_head]
  rw [onClose_of_mem isOpen s b (by rw [hb]; exact hr) hmem, hb, herase]
  by_cases ho : isOpen a = true <;> simp [List.filter_cons, ho]

/-- Closing the only participant of a room with a truthy code deletes the
room and sends nothing. -/
theorem onClose_of_single (isOpen : Conn → Bool) (s : State) (r : Value) (a : Conn)
    (hr : r.truthy = true) (hroom : Rooms.clients s.rooms r = [a])
    (ha : s.currentRoom a = r) :
    onClose isOpen s a =
      (State.mk (Rooms.delete (Rooms.set s.rooms r []) r) s.currentRoom, []) := by
  have hmem : a ∈ Rooms.clients s.rooms (s.currentRoom a) := by
    rw [ha, hroom]; simp
  rw [onClose_of_mem isOpen s a (by rw [ha]; exact hr) hmem, ha, hroom]
  simp

/-- Counterexample to C5 as stated: connections 1 and 2 are the two
participants of "ABCD"; connection 2 closes while connection 1 is not open for
writing; no `disconnected` frame is sent. -/
theorem close_skips_remaining_not_open :
    Rooms.get (afterTwoJoins 1 2 (Value.str "ABCD")).rooms (Value.str "ABCD") = some [1, 2] ∧
      (onClose noneOpen (afterTwoJoins 1 2 (Value.str "ABCD")) 2).2 = [] ∧
      sentTo (onClose noneOpen (afterTwoJoins 1 2 (Value.str "ABCD")) 2).2 1 = [] := by
  refine ⟨rfl, rfl, rfl⟩

/-- C5 (amended): for every truthy (for a string: non-empty) room code `r` and
every registry in which room `r` holds exactly two distinct participants `a`
and `b` whose current room is `r`: when `b` closes, `a` is sent exactly one
`disconnected` frame if it is open for writing and nothing otherwise, nobody
else is sent anything, and room `r` is left with exactly `[a]`; when `a` then
also closes, nothing is sent, room `r` is removed from the registry and the
room count reported by the health check is one less than before that close. -/
theorem close_active_room (isOpenB isOpenA : Conn → Bool) (s : State) (r : Value) (a b : Conn)
    (hr : r.truthy = true) (hwf : Rooms.WF s.rooms) (hab : a ≠ b)
    (hroom : Rooms.clients s.rooms r = [a, b] ∨ Rooms.clients s.rooms r = [b, a])
    (ha : s.currentRoom a = r) (hb : s.currentRoom b = r) :
    (onClose isOpenB s b).2 = (if isOpenB a = true then [(a, Frame.disconnected)] else []) ∧
    Rooms.get (onClose isOpenB s b).1.rooms r = some [a] ∧
    (onClose isOpenA (onClose isOpenB s b).1 a).2 = [] ∧
    Rooms.has (onClose isOpenA (onClose isOpenB s b).1 a).1.rooms r = false ∧
    health (onClose isOpenA (onClose isOpenB s b).1 a).1 + 1 = health (onClose isOpenB s b).1 := by
  have hmem : a ∈ Rooms.clients s.rooms r := by rcases hroom with h | h <;> simp [h]
  have hhas : Rooms.has s.rooms r = true := Rooms.has_of_mem_clients _ _ _ hmem
  have e1 := onClose_of_pair isOpenB s r a b hr hab hroom hb
  have hc1 : Rooms.clients (State.mk (Rooms.set s.rooms r [a]) s.currentRoom).rooms r = [a] := by
    simp [Rooms.clients, Rooms.get_set_same]
  have e2 := onClose_of_single isOpenA (State.mk (Rooms.set s.rooms r [a]) s.currentRoom) r a
    hr hc1 ha
  rw [e1]
  dsimp only
  rw [e2]
  dsimp only
  refine ⟨rfl, Rooms.get_set_same _ _ _, rfl, ?_, ?_⟩
  · rw [Rooms.has_eq_isSome, Rooms.get_delete_same]
    rfl
  · rw [Rooms.set_set]
    have hhas' : Rooms.has (Rooms.set s.rooms r []) r = true := by
      rw [Rooms.has_eq_isSome, Rooms.get_set_same]; rfl
    have h1 := Rooms.size_delete (Rooms.set s.rooms r []) r (Rooms.WF_set _ _ _ hwf) hhas'
    have h2 := Rooms.size_set_of_has s.rooms r [] hhas
    have h3 := Rooms.size_set_of_has s.rooms r [a] hhas
    simp only [health]
    omega

/-- Witness for C5: the room "ABCD" after connections 1 and 2 joined; 2
closes while 1 is open, then 1 closes. -/
theorem close_active_room_witness :
    (onClose (openExcept 2) (afterTwoJoins 1 2 (Value.str "ABCD")) 2).2 =
        (if openExcept 2 1 = true then [(1, Frame.disconnected)] else []) ∧
    Rooms.get (onClose (openExcept 2) (afterTwoJoins 1 2 (Value.str "ABCD")) 2).1.rooms
        (Value.str "ABCD") = some [1] ∧
    (onClose noneOpen (onClose (openExcept 2) (afterTwoJoins 1 2 (Value.str "ABCD")) 2).1 1).2 =
        [] ∧
    Rooms.has
        (onClose noneOpen
          (onClose (openExcept 2) (afterTwoJoins 1 2 (Value.str "ABCD")) 2).1 1).1.rooms
        (Value.str "ABCD") = false ∧
    health (onClose noneOpen
        (onClose (openExcept 2) (afterTwoJoins 1 2 (Value.str "ABCD")) 2).1 1).1 + 1 =
      health (onClose (openExcept 2) (afterTwoJoins 1 2 (Value.str "ABCD")) 2).1 :=
  close_active_room (openExcept 2) noneOpen (afterTwoJoins 1 2 (Value.str "ABCD"))
    (Value.str "ABCD") 1 2 rfl (by decide) (by decide) (Or.inl rfl) rfl rfl

/-- C6 at the failing input: from the empty registry connections 1, 2 and 3
join "ABCD" in turn; the state is reachable, the third join is acknowledged
with `joined`, and the participant list of "ABCD" has grown to [1, 2, 3], of
length 3. -/
theorem third_join_grows_room_past_two :
    Reachable (joinBranch allOpen (afterTwoJoins 1 2 (Value.str "ABCD")) 3 (Value.str "ABCD")).1 ∧
      Rooms.get (afterTwoJoins 1 2 (Value.str "ABCD")).rooms (Value.str "ABCD") = some [1, 2] ∧
      (joinBranch allOpen (afterTwoJoins 1 2 (Value.str "ABCD")) 3 (Value.str "ABCD")).2 =
        [(3, Frame.joined (Value.str "ABCD"))] ∧
      Rooms.get
          (joinBranch allOpen (afterTwoJoins 1 2 (Value.str "ABCD")) 3
            (Value.str "ABCD")).1.rooms (Value.str "ABCD") = some [1, 2, 3] ∧
      (Rooms.clients
          (joinBranch allOpen (afterTwoJoins 1 2 (Value.str "ABCD")) 3
            (Value.str "ABCD")).1.rooms (Value.str "ABCD")).length = 3 :=
  ⟨Reachable.frame allOpen 3 (joinFrame (Value.str "ABCD"))
      (reachable_afterTwoJoins 1 2 (Value.str "ABCD")) rfl,
    rfl, rfl, rfl, rfl⟩

/-- Round trip for a truthy room code: in a registry without empty rooms, a
join of a connection that is in no list of room `r`, followed by its close,
restores the entry of `r`. -/
theorem join_then_close_restores (isOpen1 isOpen2 : Conn → Bool) (s : State) (r : Value)
    (c : Conn) (hr : r.truthy = true) (hne : NoEmptyRoom s.rooms)
    (hc : c ∉ Rooms.clients s.rooms r) :
    Rooms.get (onClose isOpen2 (joinBranch isOpen1 s c r).1 c).1.rooms r =
      Rooms.get s.rooms r := by
  have hcur : (joinBranch isOpen1 s c r).1.currentRoom c = r := by simp [joinBranch]
  have hcl := joinBranch_clients isOpen1 s c r
  have hmem : c ∈ Rooms.clients (joinBranch isOpen1 s c r).1.rooms
      ((joinBranch isOpen1 s c r).1.currentRoom c) := by
    rw [hcur, hcl]; simp
  have herase : (Rooms.clients s.rooms r ++ [c]).erase c = Rooms.clients s.rooms r := by
    rw [List.erase_append_right _ hc]; simp
  rw [onClose_of_mem isOpen2 _ c (by rw [hcur]; exact hr) hmem, hcur, hcl, herase]
  dsimp only
  cases hg : Rooms.get s.rooms r with
  | none =>
    have h0 : Rooms.clients s.rooms r = [] := by simp [Rooms.clients, hg]
    simp [h0, Rooms.get_delete_same]
  | some v =>
    have hv : v ≠ [] := hne _ (Rooms.mem_of_get _ _ _ hg)
    have h0 : Rooms.clients s.rooms r = v := by simp [Rooms.clients, hg]
    simp [h0, hv, Rooms.get_set_same]

/-- C7 at the failing input: at start-up no room "" exists and connection 1
has joined nothing; connection 1 joins "" and closes at once; the close sends
nothing and changes nothing, and the registry now has the entry "" -> [1]. -/
theorem join_then_close_leaves_empty_code_room :
    Rooms.get State.init.rooms (Value.str "") = none ∧
      State.init.currentRoom 1 = Value.null ∧
      onClose noneOpen (joinBranch allOpen State.init 1 (Value.str "")).1 1 =
        ((joinBranch allOpen State.init 1 (Value.str "")).1, []) ∧
      Rooms.get (onClose noneOpen (joinBranch allOpen State.init 1 (Value.str "")).1 1).1.rooms
        (Value.str "") = some [1] :=
  ⟨rfl, rfl, rfl, rfl⟩

/-- A `message` frame returns normally with the state untouched and the
relayed frames as output. -/
theorem onMessage_message (isOpen : Conn → Bool) (s : State) (ws : Conn)
    (roomCode content : Value) :
    onMessage isOpen s ws (Parsed.value (Value.str "message") roomCode content) =
      .ok (s, messageBranch isOpen s ws content) := by
  simp [onMessage, tryBlock]

/-- A `join` frame returns normally with the result of the join branch. -/
theorem onMessage_join (isOpen : Conn → Bool) (s : State) (ws : Conn)
    (roomCode content : Value) :
    onMessage isOpen s ws (Parsed.value (Value.str "join") roomCode content) =
      .ok (joinBranch isOpen s ws roomCode) := by
  simp [onMessage, tryBlock]

/-- Every relayed frame is a `message` frame with the given content, to an
open participant of the sender's current room other than the sender. -/
theorem messageBranch_targets (isOpen : Conn → Bool) (s : State) (ws : Conn) (content : Value)
    (p : Send) (hp : p ∈ messageBranch isOpen s ws content) :
    p.2 = Frame.message content ∧ p.1 ≠ ws ∧ isOpen p.1 = true ∧
      p.1 ∈ Rooms.clients s.rooms (s.currentRoom ws) := by
  unfold messageBranch at hp
  dsimp only at hp
  split_ifs at hp with h
  · simp only [List.mem_map, List.mem_filter] at hp
    obtain ⟨x, ⟨hx1, hx2⟩, rfl⟩ := hp
    simp only [Bool.and_eq_true, bne_iff_ne, ne_eq] at hx2
    exact ⟨rfl, hx2.1, hx2.2, hx1⟩
  · simp at hp

/-- When a connection occurs at most once in the participant list of its
current room, a second run of its close handler right after the first changes
nothing and sends nothing; and the close of a connection whose `currentRoom`
is still `null` changes nothing and sends nothing. -/
theorem close_twice_is_noop (isOpen1 isOpen2 : Conn → Bool) (s : State) (c : Conn) :
    ((Rooms.clients s.rooms (s.currentRoom c)).count c ≤ 1 →
      onClose isOpen2 (onClose isOpen1 s c).1 c = ((onClose isOpen1 s c).1, [])) ∧
    (s.currentRoom c = Value.null → onClose isOpen1 s c = (s, [])) := by
  constructor
  · intro hcount
    by_cases hmem : c ∈ Rooms.clients s.rooms (s.currentRoom c)
    · by_cases htr : (s.currentRoom c).truthy = true
      · apply onClose_of_not_mem
        rw [onClose_currentRoom, onClose_of_mem isOpen1 s c htr hmem]
        dsimp only
        have hnot : c ∉ (Rooms.clients s.rooms (s.currentRoom c)).erase c := by
          rw [← List.count_eq_zero, List.count_erase_self]
          omega
        by_cases he : (Rooms.clients s.rooms (s.currentRoom c)).erase c = []
        · rw [if_pos he]
          simp [Rooms.clients, Rooms.get_delete_same]
        · rw [if_neg he]
          have hcl : Rooms.clients (Rooms.set s.rooms (s.currentRoom c)
              ((Rooms.clients s.rooms (s.currentRoom c)).erase c)) (s.currentRoom c) =
              (Rooms.clients s.rooms (s.currentRoom c)).erase c := by
            unfold Rooms.clients
            rw [Rooms.get_set_same]
            rfl
          rw [hcl]
          exact hnot
      · have hf : (s.currentRoom c).truthy = false := by simpa using htr
        rw [onClose_of_falsy isOpen1 s c hf]
        exact onClose_of_falsy isOpen2 s c hf
    · rw [onClose_of_not_mem isOpen1 s c hmem]
      exact onClose_of_not_mem isOpen2 s c hmem
  · intro hnull
    exact onClose_of_falsy isOpen1 s c (by rw [hnull]; rfl)

/-- C9 at the failing input: from the empty registry connection 1 sends the
join frame for "ABCD" twice and then closes, a sequence the transport can
deliver. The close sends nothing and splices one occurrence only, so the
registry still holds "ABCD" -> [1]: the closed connection has not left its
room. Leave is therefore not idempotent there: running the close handler of
connection 1 once more removes the second occurrence and deletes the room. -/
theorem second_close_changes_registry :
    deliverable
        [(allOpen, Event.frame 1 (joinFrame (Value.str "ABCD"))),
          (allOpen, Event.frame 1 (joinFrame (Value.str "ABCD"))),
          (noneOpen, Event.close 1)] = true ∧
      (afterTwoJoins 1 1 (Value.str "ABCD")).rooms = [(Value.str "ABCD", [1, 1])] ∧
      onClose noneOpen (afterTwoJoins 1 1 (Value.str "ABCD")) 1 = (doubleJoinThenClose, []) ∧
      doubleJoinThenClose.rooms = [(Value.str "ABCD", [1])] ∧
      1 ∈ Rooms.clients doubleJoinThenClose.rooms (doubleJoinThenClose.currentRoom 1) ∧
      (onClose noneOpen doubleJoinThenClose 1).1.rooms = [] ∧
      (onClose noneOpen doubleJoinThenClose 1).1.rooms ≠ doubleJoinThenClose.rooms :=
  ⟨rfl, rfl, rfl, rfl, by decide, rfl, by decide⟩

/-- C10: for every state and connection, a frame that `JSON.parse` rejects, a
frame that parses to `null`, and a frame that parses to a value without a
`type` property (whatever its other properties) each make the message handler
return normally with no frame sent and the state (registry and every
`currentRoom`) unchanged. -/
theorem malformed_frame_is_ignored (isOpen : Conn → Bool) (s : State) (ws : Conn) :
    onMessage isOpen s ws Parsed.syntaxError = .ok (s, []) ∧
      onMessage isOpen s ws Parsed.null = .ok (s, []) ∧
      ∀ roomCode content : Value,
        onMessage isOpen s ws (Parsed.value Value.undefined roomCode content) = .ok (s, []) :=
  ⟨rfl, rfl, fun _ _ => rfl⟩

/-! ## Event sequences -/

/-- A frame event either leaves the state as it is or is a join. -/
theorem step_frame_cases (isOpen : Conn → Bool) (s : State) (ws : Conn) (data : Parsed) :
    (step isOpen s (Event.frame ws data)).1 = s ∨
      ∃ r, Event.joinCodeOf ws (Event.frame ws data) = some r ∧
        step isOpen s (Event.frame ws data) = joinBranch isOpen s ws r := by
  cases data with
  | syntaxError => exact Or.inl rfl
  | null => exact Or.inl rfl
  | value type roomCode content =>
    by_cases h1 : type = Value.str "join"
    · exact Or.inr ⟨roomCode, by simp [Event.joinCodeOf, h1],
        by simp [step, onMessage, tryBlock, h1]⟩
    · by_cases h2 : type = Value.str "message"
      · exact Or.inl (by simp [step, onMessage, tryBlock, h1, h2])
      · exact Or.inl (by simp [step, onMessage, tryBlock, h1, h2])

theorem Reachable.after_step {s : State} (h : Reachable s) (isOpen : Conn → Bool) (e : Event) :
    Reachable (step isOpen s e).1 := by
  cases e with
  | frame ws data =>
    rcases step_frame_cases isOpen s ws data with h' | ⟨r, _, h'⟩
    · rw [h']; exact h
    · rw [h']
      exact Reachable.frame isOpen ws (joinFrame r) h rfl
  | close ws => exact Reachable.close isOpen ws h

theorem Reachable.after_run {s : State} (h : Reachable s) (events : List ((Conn → Bool) × Event)) :
    Reachable (run s events) := by
  induction events generalizing s with
  | nil => exact h
  | cons p rest ih => exact ih (h.after_step p.1 p.2)

/-- A join never removes anybody from any room. -/
theorem joinBranch_mem_clients (isOpen : Conn → Bool) (s : State) (d : Conn) (r k : Value)
    (c : Conn) (h : c ∈ Rooms.clients s.rooms k) :
    c ∈ Rooms.clients (joinBranch isOpen s d r).1.rooms k := by
  unfold Rooms.clients at h ⊢
  rw [joinBranch_get]
  by_cases hk : k = r
  · subst hk
    simp only [if_true, Option.getD_some, Rooms.clients]
    exact List.mem_append_left _ h
  · simpa [hk] using h

/-- After its join a connection is in the participant list of the room. -/
theorem joinBranch_self_mem (isOpen : Conn → Bool) (s : State) (c : Conn) (r : Value) :
    c ∈ Rooms.clients (joinBranch isOpen s c r).1.rooms r := by
  rw [joinBranch_clients]; simp

/-- A join sets the joiner's `currentRoom` and nobody else's. -/
theorem joinBranch_currentRoom (isOpen : Conn → Bool) (s : State) (d : Conn) (r : Value)
    (c : Conn) :
    (joinBranch isOpen s d r).1.currentRoom c = if c = d then r else s.currentRoom c := rfl

/-- The close of `d` keeps `c` in room `k` unless it is the close of `c`
itself out of its truthy current room `k`. -/
theorem onClose_mem_clients (isOpen : Conn → Bool) (s : State) (d : Conn) (k : Value) (c : Conn)
    (h : c ∈ Rooms.clients s.rooms k)
    (hsafe : d ≠ c ∨ s.currentRoom d ≠ k ∨ k.truthy = false) :
    c ∈ Rooms.clients (onClose isOpen s d).1.rooms k := by
  by_cases htr : (s.currentRoom d).truthy = true
  · by_cases hmem : d ∈ Rooms.clients s.rooms (s.currentRoom d)
    · rw [onClose_of_mem isOpen s d htr hmem]
      dsimp only
      by_cases hk : k = s.currentRoom d
      · subst hk
        have hdc : d ≠ c := by
          rcases hsafe with h1 | h1 | h1
          · exact h1
          · exact absurd rfl h1
          · rw [htr] at h1; cases h1
        have hc : c ∈ (Rooms.clients s.rooms (s.currentRoom d)).erase d :=
          (List.mem_erase_of_ne (fun e => hdc e.symm)).2 h
        have hne : (Rooms.clients s.rooms (s.currentRoom d)).erase d ≠ [] :=
          List.ne_nil_of_mem hc
        rw [if_neg hne]
        unfold Rooms.clients
        rw [Rooms.get_set_same]
        exact hc
      · unfold Rooms.clients at h ⊢
        split_ifs
        · rw [Rooms.get_delete_other _ _ _ hk, Rooms.get_set_other _ _ _ _ hk]
          exact h
        · rw [Rooms.get_set_other _ _ _ _ hk]
          exact h
    · rw [onClose_of_not_mem isOpen s d hmem]; exact h
  · rw [onClose_of_falsy isOpen s d (by simpa using htr)]; exact h

/-- An event keeps `c` in room `k` unless it is the close of `c` out of its
truthy current room `k`. -/
theorem step_mem_clients (isOpen : Conn → Bool) (s : State) (e : Event) (k : Value) (c : Conn)
    (h : c ∈ Rooms.clients s.rooms k)
    (hsafe : Event.isCloseOf c e = false ∨ s.currentRoom c ≠ k ∨ k.truthy = false) :
    c ∈ Rooms.clients (step isOpen s e).1.rooms k := by
  cases e with
  | frame ws data =>
    rcases step_frame_cases isOpen s ws data with h' | ⟨r, _, h'⟩
    · rw [h']; exact h
    · rw [h']; exact joinBranch_mem_clients isOpen s ws r k c h
  | close d =>
    apply onClose_mem_clients isOpen s d k c h
    by_cases hdc : d = c
    · subst hdc
      rcases hsafe with h1 | h1 | h1
      · simp [Event.isCloseOf] at h1
      · exact Or.inr (Or.inl h1)
      · exact Or.inr (Or.inr h1)
    · exact Or.inl hdc

/-- Only a join frame of `c` changes the `currentRoom` of `c`. -/
theorem step_currentRoom (isOpen : Conn → Bool) (s : State) (e : Event) (c : Conn) :
    (step isOpen s e).1.currentRoom c =
      match Event.joinCodeOf c e with
      | some r => r
      | none => s.currentRoom c := by
  cases e with
  | close d =>
    show (onClose isOpen s d).1.currentRoom c = s.currentRoom c
    rw [onClose_currentRoom]
  | frame ws data =>
    cases data with
    | syntaxError => rfl
    | null => rfl
    | value type roomCode content =>
      by_cases h1 : type = Value.str "join"
      · by_cases hc : ws = c
        · simp [step, onMessage, tryBlock, h1, Event.joinCodeOf, hc, joinBranch]
        · have hc' : c ≠ ws := fun h => hc h.symm
          simp [step, onMessage, tryBlock, h1, Event.joinCodeOf, hc, hc', joinBranch]
      · by_cases h2 : type = Value.str "message" <;>
          simp [step, onMessage, tryBlock, h1, h2, Event.joinCodeOf]

/-- A join frame of `c` puts `c` into the room it names. -/
theorem step_join_mem (isOpen : Conn → Bool) (s : State) (e : Event) (c : Conn) (r : Value)
    (h : Event.joinCodeOf c e = some r) :
    c ∈ Rooms.clients (step isOpen s e).1.rooms r := by
  cases e with
  | close d => simp [Event.joinCodeOf] at h
  | frame ws data =>
    cases data with
    | syntaxError => simp [Event.joinCodeOf] at h
    | null => simp [Event.joinCodeOf] at h
    | value type roomCode content =>
      simp only [Event.joinCodeOf] at h
      split_ifs at h with hj
      obtain ⟨rfl, rfl⟩ := hj
      cases h
      simp only [step, onMessage, tryBlock, if_true]
      exact joinBranch_self_mem isOpen s _ _

/-- C11: for every state, connection `c` and room code `r` (in particular
every string), a join frame of `c` for `r` is handled without error, the first
frame it emits is `joined` with room code `r`, addressed to `c`, and
afterwards the registry has the key `r` and `c` is in the participant list
stored under `r` (which is the former list with `c` appended, the empty list
when `r` was unseen). -/
theorem join_acknowledged_and_registered (isOpen : Conn → Bool) (s : State) (c : Conn)
    (r content : Value) :
    ∃ (s' : State) (rest : List Send),
      onMessage isOpen s c (Parsed.value (Value.str "join") r content) =
        .ok (s', (c, Frame.joined r) :: rest) ∧
      Rooms.has s'.rooms r = true ∧
      c ∈ Rooms.clients s'.rooms r ∧
      Rooms.get s'.rooms r = some (Rooms.clients s.rooms r ++ [c]) := by
  refine ⟨(joinBranch isOpen s c r).1, (joinBranch isOpen s c r).2.tail, ?_, ?_, ?_, ?_⟩
  · exact (onMessage_join isOpen s c r content).trans rfl
  · exact Rooms.has_of_mem_clients _ _ _ (joinBranch_self_mem isOpen s c r)
  · exact joinBranch_self_mem isOpen s c r
  · rw [joinBranch_get]; simp

/-- C12: for every state (whatever the length of the rooms and with repeated
entries allowed), every connection `c` and every content, a message frame of
`c` is handled without error and without change of state, and every frame it
emits is a `message` frame with that content addressed to an entry of the
participant list of the current room of `c` that is different from `c` and
open for writing. -/
theorem relay_only_to_open_others (isOpen : Conn → Bool) (s : State) (c : Conn)
    (roomCode content : Value) :
    ∃ out : List Send,
      onMessage isOpen s c (Parsed.value (Value.str "message") roomCode content) =
        .ok (s, out) ∧
      ∀ p ∈ out, p.1 ≠ c ∧ isOpen p.1 = true ∧
        p.1 ∈ Rooms.clients s.rooms (s.currentRoom c) ∧ p.2 = Frame.message content := by
  refine ⟨messageBranch isOpen s c content, onMessage_message _ _ _ _ _, fun p hp => ?_⟩
  have h := messageBranch_targets isOpen s c content p hp
  exact ⟨h.2.1, h.2.2.1, h.2.2.2, h.1⟩

/-- Witness for C12: connection 1 relays in "ABCD" shared with connection 2. -/
theorem relay_only_to_open_others_witness :
    ∃ out : List Send,
      onMessage allOpen (afterTwoJoins 1 2 (Value.str "ABCD")) 1
          (Parsed.value (Value.str "message") Value.undefined (Value.str "hi")) =
        .ok (afterTwoJoins 1 2 (Value.str "ABCD"), out) ∧
      ∀ p ∈ out, p.1 ≠ 1 ∧ allOpen p.1 = true ∧
        p.1 ∈ Rooms.clients (afterTwoJoins 1 2 (Value.str "ABCD")).rooms
          ((afterTwoJoins 1 2 (Value.str "ABCD")).currentRoom 1) ∧
        p.2 = Frame.message (Value.str "hi") :=
  relay_only_to_open_others allOpen (afterTwoJoins 1 2 (Value.str "ABCD")) 1 Value.undefined
    (Value.str "hi")

/-- C13 at the failing input: from the empty registry connection 1 joins
"ABCD" and then joins "WXYZ"; the state is reachable and connection 1 is in
the participant lists of both rooms. -/
theorem rejoin_leaves_connection_in_two_rooms :
    Reachable (joinBranch allOpen (afterOneJoin 1 (Value.str "ABCD")) 1 (Value.str "WXYZ")).1 ∧
      (joinBranch allOpen (afterOneJoin 1 (Value.str "ABCD")) 1 (Value.str "WXYZ")).1.rooms =
        [(Value.str "ABCD", [1]), (Value.str "WXYZ", [1])] ∧
      1 ∈ Rooms.clients
        (joinBranch allOpen (afterOneJoin 1 (Value.str "ABCD")) 1 (Value.str "WXYZ")).1.rooms
        (Value.str "ABCD") ∧
      1 ∈ Rooms.clients
        (joinBranch allOpen (afterOneJoin 1 (Value.str "ABCD")) 1 (Value.str "WXYZ")).1.rooms
        (Value.str "WXYZ") :=
  ⟨Reachable.frame allOpen 1 (joinFrame (Value.str "WXYZ"))
      (reachable_afterOneJoin 1 (Value.str "ABCD")) rfl,
    rfl, by decide, by decide⟩

/-- C14 at the failing input: from the empty registry connection 1 sends the
join frame for "ABCD" twice; the state is reachable and the participant list of
"ABCD" is [1, 1], which contains connection 1 twice. -/
theorem double_join_duplicates_connection :
    Reachable (afterTwoJoins 1 1 (Value.str "ABCD")) ∧
      Rooms.get (afterTwoJoins 1 1 (Value.str "ABCD")).rooms (Value.str "ABCD") =
        some [1, 1] ∧
      (Rooms.clients (afterTwoJoins 1 1 (Value.str "ABCD")).rooms (Value.str "ABCD")).count 1 =
        2 :=
  ⟨reachable_afterTwoJoins 1 1 (Value.str "ABCD"), rfl, by decide⟩

/-- The frames of a join: the acknowledgement to the joiner, then `connected`
frames to open connections only. -/
theorem joinBranch_sends (isOpen : Conn → Bool) (s : State) (c : Conn) (r : Value) (p : Send)
    (hp : p ∈ (joinBranch isOpen s c r).2) :
    p = (c, Frame.joined r) ∨ (isOpen p.1 = true ∧ p.2 = Frame.connected) := by
  rw [joinBranch_out] at hp
  rcases List.mem_cons.1 hp with h | h
  · exact Or.inl h
  · split_ifs at h
    · simp only [List.mem_map, List.mem_filter] at h
      obtain ⟨x, ⟨_, hx⟩, rfl⟩ := h
      exact Or.inr ⟨hx, rfl⟩
    · simp at h

/-- The frames of a close: `disconnected` frames to open connections only. -/
theorem onClose_sends (isOpen : Conn → Bool) (s : State) (c : Conn) (p : Send)
    (hp : p ∈ (onClose isOpen s c).2) :
    isOpen p.1 = true ∧ p.2 = Frame.disconnected := by
  by_cases htr : (s.currentRoom c).truthy = true
  · by_cases hmem : c ∈ Rooms.clients s.rooms (s.currentRoom c)
    · rw [onClose_of_mem isOpen s c htr hmem] at hp
      simp only [List.mem_map, List.mem_filter] at hp
      obtain ⟨x, ⟨_, hx⟩, rfl⟩ := hp
      exact ⟨hx, rfl⟩
    · rw [onClose_of_not_mem isOpen s c hmem] at hp
      simp at hp
  · rw [onClose_of_falsy isOpen s c (by simpa using htr)] at hp
    simp at hp

/-- Counterexample to C15 as stated: connection 1 is not open for writing
when its join frame for "ABCD" is handled; the `joined` frame is sent to it all
the same. -/
theorem join_ack_sent_without_readiness_check :
    noneOpen 1 = false ∧
      step noneOpen State.init (Event.frame 1 (joinFrame (Value.str "ABCD"))) =
        (afterOneJoin 1 (Value.str "ABCD"), [(1, Frame.joined (Value.str "ABCD"))]) :=
  ⟨rfl, rfl⟩

/-- C15 (amended): for every state and every event (a frame of any kind or a
close), each frame emitted is either the `joined` acknowledgement of a join
frame, addressed to the connection that sent that join frame whatever its
ready state, or a `connected`, `message` or `disconnected` frame addressed to
a connection that is open for writing at that moment (connections that are
not open are skipped). -/
theorem sends_guarded_except_join_ack (isOpen : Conn → Bool) (s : State) (e : Event) (p : Send)
    (hp : p ∈ (step isOpen s e).2) :
    (∃ r, p.2 = Frame.joined r ∧ Event.joinCodeOf p.1 e = some r) ∨
      (isOpen p.1 = true ∧
        (p.2 = Frame.connected ∨ p.2 = Frame.disconnected ∨
          ∃ content, p.2 = Frame.message content)) := by
  cases e with
  | close ws =>
    have h := onClose_sends isOpen s ws p hp
    exact Or.inr ⟨h.1, Or.inr (Or.inl h.2)⟩
  | frame ws data =>
    cases data with
    | syntaxError => simp [step, onMessage, tryBlock] at hp
    | null => simp [step, onMessage, tryBlock] at hp
    | value type roomCode content =>
      by_cases h1 : type = Value.str "join"
      · subst h1
        have hp' : p ∈ (joinBranch isOpen s ws roomCode).2 := by
          simpa [step, onMessage, tryBlock] using hp
        rcases joinBranch_sends isOpen s ws roomCode p hp' with h | h
        · subst h
          exact Or.inl ⟨roomCode, rfl, by simp [Event.joinCodeOf]⟩
        · exact Or.inr ⟨h.1, Or.inl h.2⟩
      · by_cases h2 : type = Value.str "message"
        · subst h2
          have hp' : p ∈ messageBranch isOpen s ws content := by
            simpa [step, onMessage, tryBlock] using hp
          have h := messageBranch_targets isOpen s ws content p hp'
          exact Or.inr ⟨h.2.2.1, Or.inr (Or.inr ⟨content, h.1⟩)⟩
        · simp [step, onMessage, tryBlock, h1, h2] at hp

/-- Witness for C15: the `connected` frame to connection 1 when connection 2
joins "ABCD". -/
theorem sends_guarded_except_join_ack_witness :
    (1, Frame.connected) ∈
        (step allOpen (afterOneJoin 1 (Value.str "ABCD"))
          (Event.frame 2 (joinFrame (Value.str "ABCD")))).2 ∧
      ((∃ r, Frame.connected = Frame.joined r ∧
          Event.joinCodeOf 1 (Event.frame 2 (joinFrame (Value.str "ABCD"))) = some r) ∨
        (allOpen 1 = true ∧
          (Frame.connected = Frame.connected ∨ Frame.connected = Frame.disconnected ∨
            ∃ content, Frame.connected = Frame.message content))) :=
  ⟨by decide,
    sends_guarded_except_join_ack allOpen (afterOneJoin 1 (Value.str "ABCD"))
      (Event.frame 2 (joinFrame (Value.str "ABCD"))) (1, Frame.connected) (by decide)⟩

/-- Along a sequence without a close of `c`, `c` stays listed in the room of
its last join and that room stays its current room. -/
theorem run_keeps_joined (c : Conn) (r : Value) (events : List ((Conn → Bool) × Event)) :
    ∀ (s : State) (acc : Option Value), closeRan c events = false →
      lastJoin c acc events = some r →
      (acc = some r → c ∈ Rooms.clients s.rooms r ∧ s.currentRoom c = r) →
      c ∈ Rooms.clients (run s events).rooms r ∧ (run s events).currentRoom c = r := by
  induction events with
  | nil =>
    intro s acc _ hlast hacc
    exact hacc hlast
  | cons p rest ih =>
    obtain ⟨isOpen, e⟩ := p
    intro s acc hclose hlast hacc
    simp only [closeRan, List.any_cons, Bool.or_eq_false_iff] at hclose
    apply ih (step isOpen s e).1 _ hclose.2 hlast
    intro hacc'
    have hcur := step_currentRoom isOpen s e c
    cases hj : Event.joinCodeOf c e with
    | some r' =>
      rw [hj] at hacc' hcur
      cases hacc'
      exact ⟨step_join_mem isOpen s e c _ hj, hcur⟩
    | none =>
      rw [hj] at hacc' hcur
      have h := hacc hacc'
      exact ⟨step_mem_clients isOpen s e r c h.1 (Or.inl hclose.1), hcur.trans h.2⟩

/-- C17: for every sequence of events from the empty registry and every
connection `c` whose close handler has not run in it and whose last join frame
used room code `r`, the registry reached contains the key `r`, `c` is an
element of the participant list stored under `r`, and `r` is the current room
of `c` (so the relay lookup of `c` finds its room whenever `r` is truthy). -/
theorem joined_unclosed_connection_is_listed (events : List ((Conn → Bool) × Event)) (c : Conn)
    (r : Value) (hlast : lastJoin c none events = some r) (hopen : closeRan c events = false) :
    Reachable (run State.init events) ∧
      Rooms.has (run State.init events).rooms r = true ∧
      c ∈ Rooms.clients (run State.init events).rooms r ∧
      (run State.init events).currentRoom c = r := by
  have h := run_keeps_joined c r events State.init none hopen hlast (fun h => by cases h)
  exact ⟨Reachable.init.after_run events, Rooms.has_of_mem_clients _ _ _ h.1, h.1, h.2⟩

/-- Witness for C17: connections 1 and 2 join "ABCD", 2 closes; connection 1
is still listed. -/
theorem joined_unclosed_connection_is_listed_witness :
    Reachable (run State.init
        [(allOpen, Event.frame 1 (joinFrame (Value.str "ABCD"))),
          (allOpen, Event.frame 2 (joinFrame (Value.str "ABCD"))),
          (openExcept 2, Event.close 2)]) ∧
      Rooms.has (run State.init
        [(allOpen, Event.frame 1 (joinFrame (Value.str "ABCD"))),
          (allOpen, Event.frame 2 (joinFrame (Value.str "ABCD"))),
          (openExcept 2, Event.close 2)]).rooms (Value.str "ABCD") = true ∧
      1 ∈ Rooms.clients (run State.init
        [(allOpen, Event.frame 1 (joinFrame (Value.str "ABCD"))),
          (allOpen, Event.frame 2 (joinFrame (Value.str "ABCD"))),
          (openExcept 2, Event.close 2)]).rooms (Value.str "ABCD") ∧
      (run State.init
        [(allOpen, Event.frame 1 (joinFrame (Value.str "ABCD"))),
          (allOpen, Event.frame 2 (joinFrame (Value.str "ABCD"))),
          (openExcept 2, Event.close 2)]).currentRoom 1 = Value.str "ABCD" :=
  joined_unclosed_connection_is_listed _ 1 (Value.str "ABCD") rfl rfl

/-- C18: for every state, a message frame of any connection with any content
is handled without error and leaves the whole state (the registry with every
key and every participant list in order, and every `currentRoom`) unchanged;
and every frame that is not a join frame leaves the state unchanged, so only
join frames and closes can change the registry. -/
theorem relay_is_read_only (isOpen : Conn → Bool) (s : State) :
    (∀ (c : Conn) (roomCode content : Value), ∃ out : List Send,
      onMessage isOpen s c (Parsed.value (Value.str "message") roomCode content) =
        .ok (s, out)) ∧
    (∀ (ws : Conn) (data : Parsed),
      (∀ r content : Value, data ≠ Parsed.value (Value.str "join") r content) →
        ∃ out : List Send, onMessage isOpen s ws data = .ok (s, out)) := by
  constructor
  · intro c roomCode content
    exact ⟨_, onMessage_message isOpen s c roomCode content⟩
  · intro ws data hdata
    cases data with
    | syntaxError => exact ⟨[], rfl⟩
    | null => exact ⟨[], rfl⟩
    | value type roomCode content =>
      have h1 : type ≠ Value.str "join" := fun h => hdata roomCode content (by rw [h])
      by_cases h2 : type = Value.str "message"
      · exact ⟨messageBranch isOpen s ws content, by simp [onMessage, tryBlock, h2]⟩
      · exact ⟨[], by simp [onMessage, tryBlock, h1, h2]⟩

/-- Witness for C18: a frame of type "ping" in the room "ABCD". -/
theorem relay_is_read_only_witness :
    ∃ out : List Send,
      onMessage allOpen (afterTwoJoins 1 2 (Value.str "ABCD")) 1
          (Parsed.value (Value.str "ping") Value.undefined Value.undefined) =
        .ok (afterTwoJoins 1 2 (Value.str "ABCD"), out) :=
  (relay_is_read_only allOpen (afterTwoJoins 1 2 (Value.str "ABCD"))).2 1
    (Parsed.value (Value.str "ping") Value.undefined Value.undefined)
    (fun r content h => by
      injection h with h1 _ _
      exact absurd h1 (by decide))

/-- Along a sequence in which `c` sends no join frame, `c` stays listed in
room `k` when `k` is not its current room or is falsy, and its current room
stays what it was. -/
theorem run_keeps_other_room (c : Conn) (k cur : Value)
    (hk : cur ≠ k ∨ k.truthy = false) (events : List ((Conn → Bool) × Event)) :
    ∀ s : State, joinsAgain c events = false → c ∈ Rooms.clients s.rooms k →
      s.currentRoom c = cur →
      c ∈ Rooms.clients (run s events).rooms k ∧ (run s events).currentRoom c = cur := by
  induction events with
  | nil =>
    intro s _ hmem hcur
    exact ⟨hmem, hcur⟩
  | cons p rest ih =>
    obtain ⟨isOpen, e⟩ := p
    intro s hjoin hmem hcur
    simp only [joinsAgain, List.any_cons, Bool.or_eq_false_iff] at hjoin
    have hnone : Event.joinCodeOf c e = none := by
      cases hj : Event.joinCodeOf c e with
      | none => rfl
      | some r => rw [hj] at hjoin; simp at hjoin
    have hcur' := step_currentRoom isOpen s e c
    rw [hnone] at hcur'
    apply ih (step isOpen s e).1 hjoin.2
    · apply step_mem_clients isOpen s e k c hmem
      rcases hk with h | h
      · exact Or.inr (Or.inl (by rw [hcur]; exact h))
      · exact Or.inr (Or.inr h)
    · exact hcur'.trans hcur

/-- Along any sequence of events `c` stays listed in room `k` when `k` is
falsy, and also when `k` is not the current room of `c` and `c` sends no join
frame for `k`. -/
theorem run_keeps_room (c : Conn) (k : Value) (events : List ((Conn → Bool) × Event)) :
    ∀ s : State,
      (k.truthy = false ∨ (s.currentRoom c ≠ k ∧ rejoins c k events = false)) →
      c ∈ Rooms.clients s.rooms k → c ∈ Rooms.clients (run s events).rooms k := by
  induction events with
  | nil =>
    intro s _ hmem
    exact hmem
  | cons p rest ih =>
    obtain ⟨isOpen, e⟩ := p
    intro s hk hmem
    rcases hk with hk | ⟨hcur, hre⟩
    · exact ih _ (Or.inl hk) (step_mem_clients isOpen s e k c hmem (Or.inr (Or.inr hk)))
    · simp only [rejoins, List.any_cons, Bool.or_eq_false_iff, decide_eq_false_iff_not] at hre
      have hcur' := step_currentRoom isOpen s e c
      refine ih _ (Or.inr ⟨?_, by simpa [rejoins] using hre.2⟩)
        (step_mem_clients isOpen s e k c hmem (Or.inr (Or.inl hcur)))
      cases hj : Event.joinCodeOf c e with
      | none =>
        rw [hj] at hcur'
        have hc : (step isOpen s e).1.currentRoom c = s.currentRoom c := hcur'
        rw [hc]
        exact hcur
      | some r =>
        rw [hj] at hcur'
        have hc : (step isOpen s e).1.currentRoom c = r := hcur'
        rw [hc]
        intro h
        exact hre.1 (by rw [hj, h])

/-- C19: for every state, every connection `c` and every pair of distinct
room codes `r1` and `r2` with `r2` truthy (in particular two distinct non-empty
strings), after `c` joins `r1`, joins `r2` and closes: the entry of `r1` is
still the list it had after the first join, so `c` is still an element of it
and `r1` is in the registry; the close removed one occurrence of `c` from the
list of `r2` and touched no other key; and after any later sequence of events
of any connections in which `c` does not send a new join frame for `r1`, `c`
is still in the list of `r1` and `r1` is still in the registry. -/
theorem rejoin_then_close_leaves_first_room (isOpen1 isOpen2 isOpen3 : Conn → Bool) (s : State)
    (c : Conn) (r1 r2 : Value) (h12 : r1 ≠ r2) (h2 : r2.truthy = true) :
    Rooms.get (joinJoinClose isOpen1 isOpen2 isOpen3 s c r1 r2).rooms r1 =
        some (Rooms.clients s.rooms r1 ++ [c]) ∧
    c ∈ Rooms.clients (joinJoinClose isOpen1 isOpen2 isOpen3 s c r1 r2).rooms r1 ∧
    Rooms.has (joinJoinClose isOpen1 isOpen2 isOpen3 s c r1 r2).rooms r1 = true ∧
    Rooms.clients (joinJoinClose isOpen1 isOpen2 isOpen3 s c r1 r2).rooms r2 =
        (Rooms.clients s.rooms r2 ++ [c]).erase c ∧
    (∀ k : Value, k ≠ r2 →
      Rooms.get (joinJoinClose isOpen1 isOpen2 isOpen3 s c r1 r2).rooms k =
        Rooms.get (joinBranch isOpen2 (joinBranch isOpen1 s c r1).1 c r2).1.rooms k) ∧
    (∀ events : List ((Conn → Bool) × Event), rejoins c r1 events = false →
      c ∈ Rooms.clients
          (run (joinJoinClose isOpen1 isOpen2 isOpen3 s c r1 r2) events).rooms r1 ∧
        Rooms.has (run (joinJoinClose isOpen1 isOpen2 isOpen3 s c r1 r2) events).rooms r1 =
          true) := by
  have hcur2 : (joinBranch isOpen2 (joinBranch isOpen1 s c r1).1 c r2).1.currentRoom c = r2 := by
    simp [joinBranch_currentRoom]
  have hcl2 : Rooms.clients (joinBranch isOpen2 (joinBranch isOpen1 s c r1).1 c r2).1.rooms r2 =
      Rooms.clients s.rooms r2 ++ [c] := by
    rw [joinBranch_clients]
    unfold Rooms.clients
    rw [joinBranch_get, if_neg (Ne.symm h12)]
  have hmem2 : c ∈ Rooms.clients (joinBranch isOpen2 (joinBranch isOpen1 s c r1).1 c r2).1.rooms
      ((joinBranch isOpen2 (joinBranch isOpen1 s c r1).1 c r2).1.currentRoom c) := by
    rw [hcur2]; exact joinBranch_self_mem _ _ _ _
  have hother : ∀ k : Value, k ≠ r2 →
      Rooms.get (joinJoinClose isOpen1 isOpen2 isOpen3 s c r1 r2).rooms k =
        Rooms.get (joinBranch isOpen2 (joinBranch isOpen1 s c r1).1 c r2).1.rooms k := by
    intro k hk
    unfold joinJoinClose
    rw [onClose_of_mem isOpen3 _ c (by rw [hcur2]; exact h2) hmem2, hcur2]
    dsimp only
    split_ifs
    · rw [Rooms.get_delete_other _ _ _ hk, Rooms.get_set_other _ _ _ _ hk]
    · rw [Rooms.get_set_other _ _ _ _ hk]
  have hget1 : Rooms.get (joinJoinClose isOpen1 isOpen2 isOpen3 s c r1 r2).rooms r1 =
      some (Rooms.clients s.rooms r1 ++ [c]) := by
    rw [hother r1 h12, joinBranch_get, if_neg h12, joinBranch_get, if_pos rfl]
  have hmem1 : c ∈ Rooms.clients (joinJoinClose isOpen1 isOpen2 isOpen3 s c r1 r2).rooms r1 := by
    unfold Rooms.clients
    rw [hget1]
    simp
  have hcur3 : (joinJoinClose isOpen1 isOpen2 isOpen3 s c r1 r2).currentRoom c = r2 := by
    unfold joinJoinClose
    rw [onClose_currentRoom, hcur2]
  refine ⟨hget1, hmem1, Rooms.has_of_mem_clients _ _ _ hmem1, ?_, hother, ?_⟩
  · unfold joinJoinClose
    rw [onClose_of_mem isOpen3 _ c (by rw [hcur2]; exact h2) hmem2, hcur2, hcl2]
    dsimp only
    by_cases he : (Rooms.clients s.rooms r2 ++ [c]).erase c = []
    · rw [if_pos he, he]
      simp [Rooms.clients, Rooms.get_delete_same]
    · rw [if_neg he]
      simp [Rooms.clients, Rooms.get_set_same]
  · intro events hjoin
    have h := run_keeps_room c r1 events _
      (Or.inr ⟨by rw [hcur3]; exact Ne.symm h12, hjoin⟩) hmem1
    exact ⟨h, Rooms.has_of_mem_clients _ _ _ h⟩

/-- Witness for C19: connection 1 joins "ABCD", joins "WXYZ" and closes. -/
theorem rejoin_then_close_leaves_first_room_witness :
    Rooms.get (joinJoinClose allOpen allOpen noneOpen State.init 1 (Value.str "ABCD")
        (Value.str "WXYZ")).rooms (Value.str "ABCD") = some [1] ∧
      Rooms.has (joinJoinClose allOpen allOpen noneOpen State.init 1 (Value.str "ABCD")
        (Value.str "WXYZ")).rooms (Value.str "WXYZ") = false :=
  ⟨(rejoin_then_close_leaves_first_room allOpen allOpen noneOpen State.init 1 (Value.str "ABCD")
      (Value.str "WXYZ") (by decide) rfl).1,
    rfl⟩

/-- Counterexample to C20 as stated: connection 1 joins "", connection 2 joins
"X", then connection 1 joins "X" too, which overwrites its `currentRoom`. The
later message frame of connection 1 is relayed to connection 2, and the close
of connection 1 sends `disconnected` to connection 2 and changes the registry;
the room "" still lists connection 1. -/
theorem message_after_rejoin_is_relayed :
    deliverable
        [(allOpen, Event.frame 1 (joinFrame (Value.str ""))),
          (allOpen, Event.frame 2 (joinFrame (Value.str "X"))),
          (allOpen, Event.frame 1 (joinFrame (Value.str "X"))),
          (allOpen, Event.frame 1 (messageFrame (Value.str "hi"))),
          (openExcept 1, Event.close 1)] = true ∧
      emptyThenRejoin.rooms = [(Value.str "", [1]), (Value.str "X", [2, 1])] ∧
      onMessage allOpen emptyThenRejoin 1 (messageFrame (Value.str "hi")) =
        .ok (emptyThenRejoin, [(2, Frame.message (Value.str "hi"))]) ∧
      (onClose (openExcept 1) emptyThenRejoin 1).2 = [(2, Frame.disconnected)] ∧
      (onClose (openExcept 1) emptyThenRejoin 1).1.rooms =
        [(Value.str "", [1]), (Value.str "X", [2])] ∧
      (onClose (openExcept 1) emptyThenRejoin 1).1.rooms ≠ emptyThenRejoin.rooms :=
  ⟨rfl, rfl, rfl, rfl, rfl, by decide⟩

/-- C20 (amended): for every state and connection `c`, a join of `c` with
the empty string as room code appends `c` to the list under the key "" and
sends `joined ""` to `c`, followed, exactly when the count goes from 1 to 2,
by one `connected` per open entry (so by one to `c` if it is open).
Afterwards, as long as `c` sends no further join frame, whatever the other
events: every message frame of `c` sends no frame and the close of `c` sends
no frame and leaves the state unchanged. And after any later events
whatsoever, further joins of `c` included, `c` is still in the list of "" and
the key "" is still in the registry. -/
theorem empty_room_code_is_never_left (isOpen : Conn → Bool) (s : State) (c : Conn) :
    (joinBranch isOpen s c (Value.str "")).2 =
        (c, Frame.joined (Value.str "")) ::
          (if (Rooms.clients s.rooms (Value.str "")).length = 1 then
            ((Rooms.clients s.rooms (Value.str "") ++ [c]).filter (fun x => isOpen x)).map
              (fun x => (x, Frame.connected))
          else []) ∧
    ((Rooms.clients s.rooms (Value.str "")).length = 1 → isOpen c = true →
      (c, Frame.connected) ∈ (joinBranch isOpen s c (Value.str "")).2) ∧
    Rooms.get (joinBranch isOpen s c (Value.str "")).1.rooms (Value.str "") =
        some (Rooms.clients s.rooms (Value.str "") ++ [c]) ∧
    (∀ events : List ((Conn → Bool) × Event), joinsAgain c events = false →
      (∀ (isOpen' : Conn → Bool) (roomCode content : Value),
        onMessage isOpen' (run (joinBranch isOpen s c (Value.str "")).1 events) c
            (Parsed.value (Value.str "message") roomCode content) =
          .ok (run (joinBranch isOpen s c (Value.str "")).1 events, [])) ∧
      (∀ isOpen' : Conn → Bool,
        onClose isOpen' (run (joinBranch isOpen s c (Value.str "")).1 events) c =
          (run (joinBranch isOpen s c (Value.str "")).1 events, []))) ∧
    (∀ events : List ((Conn → Bool) × Event),
      c ∈ Rooms.clients (run (joinBranch isOpen s c (Value.str "")).1 events).rooms
          (Value.str "") ∧
        Rooms.has (run (joinBranch isOpen s c (Value.str "")).1 events).rooms (Value.str "") =
          true) := by
  have hfalsy : (Value.str "").truthy = false := rfl
  have hmem := joinBranch_self_mem isOpen s c (Value.str "")
  refine ⟨joinBranch_out isOpen s c (Value.str ""), ?_, ?_, ?_, ?_⟩
  · intro hlen hopen
    rw [joinBranch_out, if_pos hlen]
    apply List.mem_cons_of_mem
    simp only [List.mem_map, List.mem_filter]
    exact ⟨c, ⟨by simp, hopen⟩, rfl⟩
  · rw [joinBranch_get, if_pos rfl]
  · intro events hjoin
    have h := run_keeps_other_room c (Value.str "") (Value.str "") (Or.inr hfalsy) events
      (joinBranch isOpen s c (Value.str "")).1 hjoin hmem (by simp [joinBranch_currentRoom])
    constructor
    · intro isOpen' roomCode content
      rw [onMessage_message]
      simp [messageBranch, h.2, Value.truthy]
    · intro isOpen'
      exact onClose_of_falsy isOpen' _ c (by rw [h.2]; rfl)
  · intro events
    have h := run_keeps_room c (Value.str "") events (joinBranch isOpen s c (Value.str "")).1
      (Or.inl hfalsy) hmem
    exact ⟨h, Rooms.has_of_mem_clients _ _ _ h⟩

/-- Witness for C20: connection 1 joins "" at start-up, connection 2 joins ""
too, then connection 1 sends a message and closes. -/
theorem empty_room_code_is_never_left_witness :
    onMessage allOpen
        (run (joinBranch allOpen State.init 1 (Value.str "")).1
          [(allOpen, Event.frame 2 (joinFrame (Value.str "")))]) 1
        (Parsed.value (Value.str "message") Value.undefined (Value.str "hi")) =
      .ok (run (joinBranch allOpen State.init 1 (Value.str "")).1
          [(allOpen, Event.frame 2 (joinFrame (Value.str "")))], []) ∧
    onClose noneOpen
        (run (joinBranch allOpen State.init 1 (Value.str "")).1
          [(allOpen, Event.frame 2 (joinFrame (Value.str "")))]) 1 =
      (run (joinBranch allOpen State.init 1 (Value.str "")).1
          [(allOpen, Event.frame 2 (joinFrame (Value.str "")))], []) :=
  ⟨((empty_room_code_is_never_left allOpen State.init 1).2.2.2.1
      [(allOpen, Event.frame 2 (joinFrame (Value.str "")))] rfl).1 allOpen Value.undefined
      (Value.str "hi"),
    ((empty_room_code_is_never_left allOpen State.init 1).2.2.2.1
      [(allOpen, Event.frame 2 (joinFrame (Value.str "")))] rfl).2 noneOpen⟩

/-- Along a sequence in which `c` sends no join frame its `currentRoom` does
not change. -/
theorem run_currentRoom_of_neverJoined (c : Conn) (events : List ((Conn → Bool) × Event)) :
    ∀ s : State, neverJoined c events = true →
      (run s events).currentRoom c = s.currentRoom c := by
  induction events with
  | nil =>
    intro s _
    rfl
  | cons p rest ih =>
    obtain ⟨isOpen, e⟩ := p
    intro s hnever
    simp only [neverJoined, joinsAgain, List.any_cons, Bool.not_eq_true',
      Bool.or_eq_false_iff] at hnever
    have hnone : Event.joinCodeOf c e = none := by
      cases hj : Event.joinCodeOf c e with
      | none => rfl
      | some r => rw [hj] at hnever; simp at hnever
    have hcur := step_currentRoom isOpen s e c
    rw [hnone] at hcur
    have hc : (step isOpen s e).1.currentRoom c = s.currentRoom c := hcur
    have hrest : neverJoined c rest = true := by
      simp [neverJoined, joinsAgain, hnever.2]
    exact (ih (step isOpen s e).1 hrest).trans hc

/-- In a deliverable sequence no event of a connection comes after the close
of that connection. -/
theorem deliverable_no_close_before (pre : List ((Conn → Bool) × Event)) (isOpen : Conn → Bool)
    (e : Event) (h : deliverable (pre ++ [(isOpen, e)]) = true) :
    closeRan (Event.conn e) pre = false := by
  induction pre with
  | nil => rfl
  | cons p rest ih =>
    obtain ⟨isOpen', e'⟩ := p
    cases e' with
    | frame ws data =>
      simp only [List.cons_append, deliverable] at h
      simp only [closeRan, List.any_cons, Event.isCloseOf, Bool.false_or]
      exact ih h
    | close d =>
      simp only [List.cons_append, deliverable, Bool.and_eq_true] at h
      have hmem := (List.all_eq_true.1 h.1) (isOpen, e)
        (List.mem_append_right _ (List.mem_singleton_self _))
      have hd : ¬ d = Event.conn e := by
        intro hde
        simp [hde] at hmem
      simp only [closeRan, List.any_cons, Event.isCloseOf, hd, decide_False, Bool.false_or]
      exact ih h.2

/-- C8: a message frame from a connection without a room is dropped. For
every state, a message frame, whatever its content, of a connection that has
never joined (its `currentRoom` is still `null`) is handled without error,
sends no frame and leaves the state unchanged. And for every sequence of
events from the empty registry that the transport can deliver (no event of a
connection after its own close), a message frame of a connection that so far
has sent no join frame, or whose close handler has already run, is handled
without error, sends no frame and leaves the state unchanged (the second case
never arises in such a sequence: `deliverable_no_close_before`). -/
theorem message_from_roomless_connection_is_dropped :
    (∀ (isOpen : Conn → Bool) (s : State) (c : Conn) (roomCode content : Value),
      s.currentRoom c = Value.null →
        onMessage isOpen s c (Parsed.value (Value.str "message") roomCode content) =
          .ok (s, [])) ∧
    (∀ (pre : List ((Conn → Bool) × Event)) (isOpen : Conn → Bool) (c : Conn)
      (roomCode content : Value),
      deliverable (pre ++
        [(isOpen, Event.frame c (Parsed.value (Value.str "message") roomCode content))]) = true →
      (neverJoined c pre = true ∨ closeRan c pre = true) →
        onMessage isOpen (run State.init pre) c
            (Parsed.value (Value.str "message") roomCode content) =
          .ok (run State.init pre, [])) := by
  have hnull : ∀ (isOpen : Conn → Bool) (s : State) (c : Conn) (roomCode content : Value),
      s.currentRoom c = Value.null →
        onMessage isOpen s c (Parsed.value (Value.str "message") roomCode content) =
          .ok (s, []) := by
    intro isOpen s c roomCode content h
    rw [onMessage_message]
    simp [messageBranch, h, Value.truthy]
  refine ⟨hnull, ?_⟩
  intro pre isOpen c roomCode content hdel hcase
  have hopen := deliverable_no_close_before pre isOpen _ hdel
  simp only [Event.conn] at hopen
  rcases hcase with hnever | hclosed
  · apply hnull
    rw [run_currentRoom_of_neverJoined c pre State.init hnever]
    rfl
  · rw [hopen] at hclosed
    cases hclosed

/-- Witness for C8: connections 1 and 2 are in "ABCD" and connection 2 has
closed; connection 7, which never joined, sends a message frame. -/
theorem message_from_roomless_connection_is_dropped_witness :
    onMessage allOpen
        (run State.init
          [(allOpen, Event.frame 1 (joinFrame (Value.str "ABCD"))),
            (allOpen, Event.frame 2 (joinFrame (Value.str "ABCD"))),
            (openExcept 2, Event.close 2)]) 7
        (Parsed.value (Value.str "message") Value.undefined (Value.str "hi")) =
      .ok (run State.init
          [(allOpen, Event.frame 1 (joinFrame (Value.str "ABCD"))),
            (allOpen, Event.frame 2 (joinFrame (Value.str "ABCD"))),
            (openExcept 2, Event.close 2)], []) :=
  message_from_roomless_connection_is_dropped.2
    [(allOpen, Event.frame 1 (joinFrame (Value.str "ABCD"))),
      (allOpen, Event.frame 2 (joinFrame (Value.str "ABCD"))),
      (openExcept 2, Event.close 2)] allOpen 7 Value.undefined (Value.str "hi") rfl (Or.inl rfl)

end RelayServer
